import Mathlib

/-!
Verification development for the ERP testing backend (Express + SQLite).

The definitions below are a shallow embedding of the route handlers in
`server.js` and of the TypeScript routers under `src/routes/`.  Rows are
modelled as structures whose columns hold SQLite values (`SqlVal`), request
bodies as association lists of JavaScript/JSON values (`Json`), and the
handlers as pure state-passing functions.  `CURRENT_TIMESTAMP` is threaded
explicitly as a natural number `now`.

Modelling notes (shared by all definitions):
* SQLite REAL columns and non-integer JSON number payloads are outside the
  model: `bindJs` binds only strings, integer-valued number literals,
  booleans and null, exactly the value shapes the handlers under study
  receive; theorems carry the corresponding bindability hypotheses.
* JSON number literals are kept as their source lexeme (`Json.num lex`);
  two number literals are compared numerically when both are integer
  lexemes and textually otherwise.
* The autoincrement `id` column of each table is omitted from row
  structures: the handlers under study never read it (it is excluded from
  every dynamic update).
-/

/-- JSON / JavaScript values as produced by `JSON.parse` on a request body
or by the handlers (strings, numbers kept as lexemes, booleans, null,
arrays, objects). -/
inductive Json where
  | null : Json
  | bool (b : Bool) : Json
  | num (lex : String) : Json
  | str (s : String) : Json
  | arr (xs : List Json) : Json
  | obj (kvs : List (String × Json)) : Json

/-- SQLite storage values of the columns used by the handlers:
TEXT, INTEGER and NULL. -/
inductive SqlVal where
  | s (v : String) : SqlVal
  | i (v : Int) : SqlVal
  | null : SqlVal
deriving Repr, DecidableEq

/-- Parse a decimal integer lexeme (optional leading minus, then digits).
Returns `none` for anything else, in particular fractional lexemes. -/
def intLex? (s : String) : Option Int :=
  let core (ds : List Char) : Option Nat :=
    if ds = [] then none
    else if ds.all Char.isDigit then
      some (ds.foldl (fun a c => a * 10 + (c.toNat - 48)) 0)
    else none
  match s.data with
  | '-' :: rest => (core rest).map (fun n => -(n : Int))
  | ds => (core ds).map (fun n => (n : Int))

/-- Numeric equality of two JSON number lexemes: numeric when both are
integer lexemes, textual otherwise (non-integer literals do not occur in
the payloads under study). -/
def numLexEq (a b : String) : Bool :=
  match intLex? a, intLex? b with
  | some x, some y => x == y
  | _, _ => a == b

/-- JavaScript truthiness of a request-body value. -/
def jsTruthy : Json → Bool
  | Json.null => false
  | Json.bool b => b
  | Json.num lex => !(intLex? lex == some 0)
  | Json.str s => !(s == "")
  | Json.arr _ => true
  | Json.obj _ => true

/-- How `node-sqlite3` binds a JavaScript value into a statement parameter:
strings as TEXT, integer numbers and booleans as INTEGER, null as NULL;
arrays/objects (and non-integer numbers, see the modelling notes) are not
bindable. -/
def bindJs : Json → Option SqlVal
  | Json.str s => some (SqlVal.s s)
  | Json.num lex => (intLex? lex).map SqlVal.i
  | Json.bool b => some (SqlVal.i (if b then 1 else 0))
  | Json.null => some SqlVal.null
  | Json.arr _ => none
  | Json.obj _ => none

/-- The JavaScript value obtained when reading a stored SQLite value back
through `node-sqlite3` (TEXT as string, INTEGER as number, NULL as null). -/
def jsOfSql : SqlVal → Json
  | SqlVal.s v => Json.str v
  | SqlVal.i v => Json.num (toString v)
  | SqlVal.null => Json.null

/-- JavaScript strict equality `===` restricted to the comparisons the
handlers perform: one operand is always a primitive read back from the
store, so two arrays/objects are never identical references and compare
unequal. -/
def jsStrictEq : Json → Json → Bool
  | Json.str a, Json.str b => a == b
  | Json.num a, Json.num b => numLexEq a b
  | Json.bool a, Json.bool b => a == b
  | Json.null, Json.null => true
  | _, _ => false

/-- JavaScript truthiness of a value read back from the store (note a
nonempty string is truthy even when it is `"0"` or `"false"`). -/
def sqlTruthyJs : SqlVal → Bool
  | SqlVal.s v => !(v == "")
  | SqlVal.i v => !(v == 0)
  | SqlVal.null => false

/-- SQLite TEXT column affinity applied on insert: integers are converted
to their decimal text, NULL is kept. -/
def affText : SqlVal → SqlVal
  | SqlVal.i v => SqlVal.s (toString v)
  | v => v

/-- The whitespace set trimmed by JavaScript `String.prototype.trim`
(restricted to the ASCII part relevant here). -/
def isJsSpace (c : Char) : Bool :=
  c == ' ' || c == '\t' || c == '\n' || c == '\r' || c == '\x0b' || c == '\x0c'

/-- JavaScript `str.trim()`. -/
def jsTrim (s : String) : String :=
  String.mk (((s.data.dropWhile isJsSpace).reverse.dropWhile isJsSpace).reverse)

/-- SQLite `TRIM(x)`: removes space characters only, from both ends. -/
def sqlTrim (s : String) : String :=
  String.mk (((s.data.dropWhile (· == ' ')).reverse.dropWhile (· == ' ')).reverse)

/-- ASCII upper-casing, as SQLite `UPPER` (and `Char.toUpper`) perform. -/
def asciiUpper (s : String) : String :=
  String.mk (s.data.map Char.toUpper)

/-- ASCII lower-casing. -/
def asciiLower (s : String) : String :=
  String.mk (s.data.map Char.toLower)

/-- Split a character list at every comma or newline (the JavaScript
`str.split(/[,\n]/)`, which keeps empty segments). -/
def splitDelims : List Char → List (List Char)
  | [] => [[]]
  | c :: cs =>
    let rest := splitDelims cs
    if c == ',' || c == '\n' then [] :: rest
    else match rest with
      | [] => [[c]]
      | seg :: segs => (c :: seg) :: segs

/-- `str.split(/[,\n]/)` on strings. -/
def jsSplitDelims (s : String) : List String :=
  (splitDelims s.data).map String.mk

/-- JSON insignificant whitespace (the four characters of ECMA-404). -/
def jsonWs (cs : List Char) : List Char :=
  cs.dropWhile (fun c => c == ' ' || c == '\t' || c == '\n' || c == '\r')

/-- Value of a hexadecimal digit. -/
def hexVal? (c : Char) : Option Nat :=
  if '0' ≤ c ∧ c ≤ '9' then some (c.toNat - 48)
  else if 'a' ≤ c ∧ c ≤ 'f' then some (c.toNat - 87)
  else if 'A' ≤ c ∧ c ≤ 'F' then some (c.toNat - 55)
  else none

/-- Decode a JSON string body after its opening quote (escape sequences
included), returning the decoded characters and the input after the
closing quote.  Surrogate `\uXXXX` pairs combine into one character; a
lone surrogate (legal for `JSON.parse`, not representable as a Lean
character) becomes U+FFFD. -/
def parseJString : Nat → List Char → Option (List Char × List Char)
  | 0, _ => none
  | _, [] => none
  | fuel + 1, c :: cs =>
    if c == '"' then some ([], cs)
    else if c.toNat < 0x20 then none
    else if c == '\\' then
      match cs with
      | [] => none
      | e :: cs2 =>
        let cont (ch : Char) (rest : List Char) : Option (List Char × List Char) :=
          (parseJString fuel rest).map (fun p => (ch :: p.1, p.2))
        if e == '"' then cont '"' cs2
        else if e == '\\' then cont '\\' cs2
        else if e == '/' then cont '/' cs2
        else if e == 'b' then cont '\x08' cs2
        else if e == 'f' then cont '\x0c' cs2
        else if e == 'n' then cont '\n' cs2
        else if e == 'r' then cont '\r' cs2
        else if e == 't' then cont '\t' cs2
        else if e == 'u' then
          match cs2 with
          | h1 :: h2 :: h3 :: h4 :: cs3 =>
            match hexVal? h1, hexVal? h2, hexVal? h3, hexVal? h4 with
            | some a, some b, some c3, some d =>
              let n := ((a * 16 + b) * 16 + c3) * 16 + d
              if 0xD800 ≤ n ∧ n ≤ 0xDBFF then
                match cs3 with
                | '\\' :: 'u' :: g1 :: g2 :: g3 :: g4 :: cs4 =>
                  match hexVal? g1, hexVal? g2, hexVal? g3, hexVal? g4 with
                  | some a2, some b2, some c4, some d2 =>
                    let m := ((a2 * 16 + b2) * 16 + c4) * 16 + d2
                    if 0xDC00 ≤ m ∧ m ≤ 0xDFFF then
                      cont (Char.ofNat (0x10000 + (n - 0xD800) * 0x400 + (m - 0xDC00))) cs4
                    else cont '�' cs3
                  | _, _, _, _ => cont '�' cs3
                | _ => cont '�' cs3
              else if 0xDC00 ≤ n ∧ n ≤ 0xDFFF then cont '�' cs3
              else cont (Char.ofNat n) cs3
            | _, _, _, _ => none
          | _ => none
        else none
    else (parseJString fuel cs).map (fun p => (c :: p.1, p.2))

/-- Lex a JSON number literal: `-? (0 | [1-9][0-9]*) (.[0-9]+)? ([eE][+-]?[0-9]+)?`.
Returns the lexeme characters and the remaining input. -/
def lexJNumber (cs : List Char) : Option (List Char × List Char) :=
  let digits (l : List Char) : List Char × List Char := (l.takeWhile Char.isDigit, l.dropWhile Char.isDigit)
  let (neg, cs1) := match cs with
    | '-' :: r => (['-'], r)
    | r => (([] : List Char), r)
  let intPart : Option (List Char × List Char) :=
    match cs1 with
    | '0' :: r => some (['0'], r)
    | c :: _ =>
      if c.isDigit then
        let (ds, r) := digits cs1
        some (ds, r)
      else none
    | [] => none
  intPart.bind (fun ip =>
    let (frac, cs2) : List Char × List Char :=
      match ip.2 with
      | '.' :: r =>
        let (ds, r2) := digits r
        if ds = [] then ([], ip.2) else ('.' :: ds, r2)
      | _ => ([], ip.2)
    match cs2 with
      | e :: r =>
        if e == 'e' || e == 'E' then
          let (sgn, r2) : List Char × List Char :=
            match r with
            | '+' :: r3 => (['+'], r3)
            | '-' :: r3 => (['-'], r3)
            | r3 => ([], r3)
          let (ds, r4) := digits r2
          if ds = [] then none
          else some (neg ++ ip.1 ++ frac ++ [e] ++ sgn ++ ds, r4)
        else some (neg ++ ip.1 ++ frac, cs2)
      | [] => some (neg ++ ip.1 ++ frac, []))

mutual

/-- Parse one JSON value (leading whitespace allowed), fuel-bounded. -/
def parseJVal : Nat → List Char → Option (Json × List Char)
  | 0, _ => none
  | fuel + 1, cs =>
    match jsonWs cs with
    | [] => none
    | c :: rest =>
      if c == 'n' then
        match rest with
        | 'u' :: 'l' :: 'l' :: r => some (Json.null, r)
        | _ => none
      else if c == 't' then
        match rest with
        | 'r' :: 'u' :: 'e' :: r => some (Json.bool true, r)
        | _ => none
      else if c == 'f' then
        match rest with
        | 'a' :: 'l' :: 's' :: 'e' :: r => some (Json.bool false, r)
        | _ => none
      else if c == '"' then
        (parseJString fuel rest).map (fun p => (Json.str (String.mk p.1), p.2))
      else if c == '[' then
        match jsonWs rest with
        | ']' :: r => some (Json.arr [], r)
        | cs1 => (parseJItems fuel cs1).map (fun p => (Json.arr p.1, p.2))
      else if c == '\x7b' then
        match jsonWs rest with
        | '\x7d' :: r => some (Json.obj [], r)
        | cs1 => (parseJMembers fuel cs1).map (fun p => (Json.obj p.1, p.2))
      else
        (lexJNumber (c :: rest)).map (fun p => (Json.num (String.mk p.1), p.2))

/-- Parse the nonempty item list of a JSON array, up to and including the
closing bracket. -/
def parseJItems : Nat → List Char → Option (List Json × List Char)
  | 0, _ => none
  | fuel + 1, cs =>
    (parseJVal fuel cs).bind (fun p =>
      match jsonWs p.2 with
      | ',' :: r => (parseJItems fuel r).map (fun q => (p.1 :: q.1, q.2))
      | ']' :: r => some ([p.1], r)
      | _ => none)

/-- Parse the nonempty member list of a JSON object, up to and including
the closing brace. -/
def parseJMembers : Nat → List Char → Option (List (String × Json) × List Char)
  | 0, _ => none
  | fuel + 1, cs =>
    match jsonWs cs with
    | '"' :: r =>
      (parseJString fuel r).bind (fun pk =>
        match jsonWs pk.2 with
        | ':' :: r2 =>
          (parseJVal fuel r2).bind (fun pv =>
            match jsonWs pv.2 with
            | ',' :: r3 => (parseJMembers fuel r3).map (fun q => ((String.mk pk.1, pv.1) :: q.1, q.2))
            | '\x7d' :: r3 => some ([(String.mk pk.1, pv.1)], r3)
            | _ => none)
        | _ => none)
    | _ => none

end

/-- `JSON.parse`: `some v` when the whole input is a valid JSON document,
`none` when parsing throws.  The fuel bounds recursion depth and exceeds
any depth reachable on the input. -/
def jsonParse (s : String) : Option Json :=
  match parseJVal (2 * s.length + 4) s.data with
  | some (v, rest) => if jsonWs rest = [] then some v else none
  | none => none

/-- Lowercase hexadecimal digit. -/
def hexDigitChar (n : Nat) : Char :=
  if n < 10 then Char.ofNat (48 + n) else Char.ofNat (87 + n % 16)

/-- `JSON.stringify` escaping of one string character. -/
def escapeJChar (c : Char) : String :=
  if c == '"' then "\\\""
  else if c == '\\' then "\\\\"
  else if c == '\x08' then "\\b"
  else if c == '\t' then "\\t"
  else if c == '\n' then "\\n"
  else if c == '\x0c' then "\\f"
  else if c == '\r' then "\\r"
  else if c.toNat < 0x20 then
    "\\u00" ++ String.mk [hexDigitChar (c.toNat / 16), hexDigitChar (c.toNat % 16)]
  else String.mk [c]

/-- `JSON.stringify` of a string value (quoted, escaped). -/
def quoteJ (s : String) : String :=
  "\"" ++ String.join (s.data.map escapeJChar) ++ "\""

mutual

/-- `JSON.stringify` (no indentation, as the handlers call it).  Number
values print as their stored lexeme (see the modelling notes). -/
def stringify : Json → String
  | Json.null => "null"
  | Json.bool b => if b then "true" else "false"
  | Json.num lex => lex
  | Json.str s => quoteJ s
  | Json.arr xs => "[" ++ stringifyItems xs ++ "]"
  | Json.obj kvs => "\x7b" ++ stringifyMembers kvs ++ "\x7d"

/-- Comma-separated serialization of array items. -/
def stringifyItems : List Json → String
  | [] => ""
  | [x] => stringify x
  | x :: y :: xs => stringify x ++ "," ++ stringifyItems (y :: xs)

/-- Comma-separated serialization of object members. -/
def stringifyMembers : List (String × Json) → String
  | [] => ""
  | [(k, v)] => quoteJ k ++ ":" ++ stringify v
  | (k, v) :: m :: kvs => quoteJ k ++ ":" ++ stringify v ++ "," ++ stringifyMembers (m :: kvs)

end

/-- `safeJsonParse(str, defaultValue)` from `server.js`: the stored-text
decoder for JSON columns.  It is a total function (the source wraps the
body in try/catch, so it never throws).  For a string input the
`typeof str === 'object'` branch of the source is unreachable and the
`!str` test is equivalent to `str === ''`. -/
def safeJsonParse (str : String) (defaultValue : Json) : Json :=
  if str == "" || str == "null" || str == "undefined" then defaultValue
  else
    match jsonParse str with
    | some v => v
    | none =>
      match defaultValue with
      | Json.arr _ =>
        if str.data.contains ',' || str.data.contains '\n' then
          Json.arr ((((jsSplitDelims str).map jsTrim).filter (fun t => !(t == ""))).map Json.str)
        else Json.arr [Json.str str]
      | _ => defaultValue

/-- Handler outcome, as reported to the HTTP client.  The backend uses
400 (`badRequest`), 404 (`notFound`), 401 and 500 (`serverError`); no
route responds 409. -/
inductive HResp where
  | ok : HResp
  | badRequest (msg : String) : HResp
  | notFound (msg : String) : HResp
  | serverError : HResp
deriving Repr, DecidableEq

/-- JavaScript `x || d`. -/
def jsOr (v d : Json) : Json := if jsTruthy v then v else d

/-- Bind every processed payload value; `none` when any value is not
bindable (the statement then fails and the handler responds 500). -/
def bindAll (process : String → Json → Json) (l : List (String × Json)) :
    Option (List (String × SqlVal)) :=
  l.foldr
    (fun kv acc =>
      (bindJs (process kv.1 kv.2)).bind (fun sv => acc.map (fun rest => (kv.1, sv) :: rest)))
    (some [])

/-! ### Versions (`versions` table, `server.js`) -/

/-- One row of the `versions` table (autoincrement `id` omitted, see the
modelling notes). -/
structure VersionRow where
  version_id : String
  version_number : SqlVal
  version_name : SqlVal
  description : SqlVal
  release_date : SqlVal
  status : SqlVal
  is_current : SqlVal
  features : SqlVal
  bug_fixes : SqlVal
  known_issues : SqlVal
  created_by : SqlVal
  created_at : SqlVal
  updated_at : SqlVal
deriving Repr, DecidableEq

/-- Column names of the `versions` table. -/
def versionsColumns : List String :=
  ["id", "version_id", "version_number", "version_name", "description", "release_date",
   "status", "is_current", "features", "bug_fixes", "known_issues", "created_by",
   "created_at", "updated_at"]

/-- Apply one `SET column = value` clause to a versions row.  Keys reaching
this point are existing, non-excluded columns. -/
def applyVSet (r : VersionRow) (k : String) (v : SqlVal) : VersionRow :=
  match k with
  | "version_number" => { r with version_number := v }
  | "version_name" => { r with version_name := v }
  | "description" => { r with description := v }
  | "release_date" => { r with release_date := v }
  | "status" => { r with status := v }
  | "is_current" => { r with is_current := v }
  | "features" => { r with features := v }
  | "bug_fixes" => { r with bug_fixes := v }
  | "known_issues" => { r with known_issues := v }
  | "created_by" => { r with created_by := v }
  | "updated_at" => { r with updated_at := v }
  | _ => r

/-- `PUT /api/versions/:version_id` keeps every body key except
`version_id`, `id`, `created_at`. -/
def versionFieldsOf (updates : List (String × Json)) : List (String × Json) :=
  updates.filter (fun kv =>
    !(kv.1 == "version_id") && !(kv.1 == "id") && !(kv.1 == "created_at"))

/-- JSON-encoded columns of a version update (`features`, `bug_fixes`,
`known_issues` are stringified; every other value is bound as sent). -/
def versionProcess (k : String) (v : Json) : Json :=
  if k == "features" || k == "bug_fixes" || k == "known_issues" then Json.str (stringify v)
  else v

/-- `UPDATE versions SET is_current = 0, updated_at = CURRENT_TIMESTAMP
WHERE version_id != ?` (the pre-phase of the version update). -/
def versionClearOthers (now : Nat) (vid : String) (s : List VersionRow) : List VersionRow :=
  s.map (fun r =>
    if r.version_id ≠ vid then { r with is_current := SqlVal.i 0, updated_at := SqlVal.i now }
    else r)

/-- `UPDATE versions SET is_current = 0, updated_at = CURRENT_TIMESTAMP`
(no WHERE clause: every row). -/
def versionClearAll (now : Nat) (s : List VersionRow) : List VersionRow :=
  s.map (fun r => { r with is_current := SqlVal.i 0, updated_at := SqlVal.i now })

/-- Apply the bound `SET` clauses plus `updated_at = CURRENT_TIMESTAMP` to
the rows matching `WHERE version_id = ?`. -/
def versionApplyTo (now : Nat) (vid : String) (pairs : List (String × SqlVal))
    (s : List VersionRow) : List VersionRow :=
  s.map (fun r =>
    if r.version_id == vid then
      { pairs.foldl (fun acc kv => applyVSet acc kv.1 kv.2) r with updated_at := SqlVal.i now }
    else r)

/-- `PUT /api/versions/:version_id` (`server.js`).  When the body's
`is_current` is truthy the handler first clears the flag on every OTHER
version, and only then builds and runs the main update, whose
`changes === 0` produces the 404 — so the clearing persists even when the
id does not exist. -/
def versionUpdate (now : Nat) (s : List VersionRow) (vid : String)
    (updates : List (String × Json)) : HResp × List VersionRow :=
  let s1 :=
    if (match updates.lookup "is_current" with | some v => jsTruthy v | none => false) then
      versionClearOthers now vid s
    else s
  let flds := versionFieldsOf updates
  if flds.isEmpty then (HResp.badRequest "No fields to update", s1)
  else if flds.all (fun kv => versionsColumns.contains kv.1) then
    match bindAll versionProcess flds with
    | none => (HResp.serverError, s1)
    | some pairs =>
      let changes := (s1.filter (fun r => r.version_id == vid)).length
      if changes = 0 then (HResp.notFound "Version not found", s1)
      else (HResp.ok, versionApplyTo now vid pairs s1)
  else (HResp.serverError, s1)

/-- `PUT /api/versions/:version_id/set-current` (`server.js`): unset
`is_current` on every version, then set it on the named one; 404 when the
second update matches no row (the unset persists). -/
def versionSetCurrent (now : Nat) (s : List VersionRow) (vid : String) :
    HResp × List VersionRow :=
  let s1 := versionClearAll now s
  let changes := (s1.filter (fun r => r.version_id == vid)).length
  if changes = 0 then (HResp.notFound "Version not found", s1)
  else
    (HResp.ok,
     s1.map (fun r =>
       if r.version_id == vid then { r with is_current := SqlVal.i 1, updated_at := SqlVal.i now }
       else r))

/-- Body of `POST /api/versions` (absent properties are `Json.null`;
`version_number` must be a string, the handler calls `.replace` on it). -/
structure VersionCreateBody where
  version_number : String
  version_name : Json := Json.null
  description : Json := Json.null
  release_date : Json := Json.null
  status : Json := Json.null
  is_current : Json := Json.null
  features : Json := Json.null
  bug_fixes : Json := Json.null
  known_issues : Json := Json.null
  created_by : Json := Json.null

/-- `POST /api/versions` (`server.js`): when `is_current` is truthy, first
unset it on all versions, then insert the new row (UNIQUE `version_id`
violation responds 500, leaving the unset applied).  `today` stands for
`new Date().toISOString().split('T')[0]`. -/
def versionCreate (now : Nat) (today : String) (s : List VersionRow)
    (b : VersionCreateBody) : HResp × List VersionRow :=
  let s1 := if jsTruthy b.is_current then versionClearAll now s else s
  let vid := "VER_" ++ String.mk (b.version_number.data.map (fun c => if c == '.' then '_' else c))
  match bindJs b.version_name, bindJs (jsOr b.description (Json.str "")),
      bindJs (jsOr b.release_date (Json.str today)), bindJs (jsOr b.status (Json.str "active")),
      bindJs b.created_by with
  | some vn, some desc, some rd, some st, some cb =>
    if s1.any (fun r => r.version_id == vid) then (HResp.serverError, s1)
    else
      (HResp.ok,
       s1 ++ [{ version_id := vid
                version_number := SqlVal.s b.version_number
                version_name := vn
                description := desc
                release_date := rd
                status := st
                is_current := SqlVal.i (if jsTruthy b.is_current then 1 else 0)
                features := SqlVal.s (stringify (jsOr b.features (Json.arr [])))
                bug_fixes := SqlVal.s (stringify (jsOr b.bug_fixes (Json.arr [])))
                known_issues := SqlVal.s (stringify (jsOr b.known_issues (Json.arr [])))
                created_by := cb
                created_at := SqlVal.i now
                updated_at := SqlVal.i now }])
  | _, _, _, _, _ => (HResp.serverError, s1)

/-- The version-mutating operations of the API. -/
inductive VOp where
  | create (now : Nat) (today : String) (b : VersionCreateBody) : VOp
  | update (now : Nat) (vid : String) (updates : List (String × Json)) : VOp
  | setCur (now : Nat) (vid : String) : VOp

/-- State transition of one version operation (the response discarded). -/
def vstep (s : List VersionRow) : VOp → List VersionRow
  | VOp.create now today b => (versionCreate now today s b).2
  | VOp.update now vid u => (versionUpdate now s vid u).2
  | VOp.setCur now vid => (versionSetCurrent now s vid).2

/-- Number of rows whose stored `is_current` reads back truthy. -/
def versionCurrentCount (s : List VersionRow) : Nat :=
  (s.filter (fun r => sqlTruthyJs r.is_current)).length

/-- Store well-formedness: `version_id` is UNIQUE (schema constraint) and
at most one version is current. -/
def versionInv (s : List VersionRow) : Prop :=
  (s.map VersionRow.version_id).Nodup ∧ versionCurrentCount s ≤ 1

/-- A request body is a JavaScript object, so its keys are distinct. -/
def vopWF : VOp → Prop
  | VOp.update _ _ u => (u.map Prod.fst).Nodup
  | _ => True

/-! ### Bugs (`bugs` and `bug_history` tables, `server.js`) -/

/-- One row of the `bugs` table (autoincrement `id` omitted). -/
structure BugRow where
  bug_id : String
  title : SqlVal := SqlVal.null
  description : SqlVal := SqlVal.null
  steps_to_reproduce : SqlVal := SqlVal.null
  expected_result : SqlVal := SqlVal.null
  actual_result : SqlVal := SqlVal.null
  priority : SqlVal := SqlVal.s "P3"
  severity : SqlVal := SqlVal.s "Minor"
  category : SqlVal := SqlVal.null
  type : SqlVal := SqlVal.s "Functional"
  status : SqlVal := SqlVal.s "New"
  resolution : SqlVal := SqlVal.null
  linked_tests : SqlVal := SqlVal.null
  related_bugs : SqlVal := SqlVal.null
  parent_bug_id : SqlVal := SqlVal.null
  module_id : SqlVal := SqlVal.null
  session_id : SqlVal := SqlVal.null
  reporter_id : SqlVal := SqlVal.null
  reporter_name : SqlVal := SqlVal.null
  reporter_email : SqlVal := SqlVal.null
  assignee_id : SqlVal := SqlVal.null
  assignee_name : SqlVal := SqlVal.null
  assignee_email : SqlVal := SqlVal.null
  verifier_id : SqlVal := SqlVal.null
  verifier_name : SqlVal := SqlVal.null
  verifier_email : SqlVal := SqlVal.null
  environment : SqlVal := SqlVal.null
  found_in_version : SqlVal := SqlVal.null
  fixed_in_version : SqlVal := SqlVal.null
  target_release : SqlVal := SqlVal.null
  created_at : SqlVal := SqlVal.null
  updated_at : SqlVal := SqlVal.null
  resolved_at : SqlVal := SqlVal.null
  verified_at : SqlVal := SqlVal.null
  attachments : SqlVal := SqlVal.null
  tags : SqlVal := SqlVal.null
  is_deleted : SqlVal := SqlVal.i 0
deriving Repr, DecidableEq

/-- Column names of the `bugs` table. -/
def bugsColumns : List String :=
  ["id", "bug_id", "title", "description", "steps_to_reproduce", "expected_result",
   "actual_result", "priority", "severity", "category", "type", "status", "resolution",
   "linked_tests", "related_bugs", "parent_bug_id", "module_id", "session_id",
   "reporter_id", "reporter_name", "reporter_email", "assignee_id", "assignee_name",
   "assignee_email", "verifier_id", "verifier_name", "verifier_email", "environment",
   "found_in_version", "fixed_in_version", "target_release", "created_at", "updated_at",
   "resolved_at", "verified_at", "attachments", "tags", "is_deleted"]

/-- `currentBug[key]` for a dynamic key: the stored column value, `none`
standing for JavaScript `undefined` when the key is not a column. -/
def getBugCol (r : BugRow) (k : String) : Option SqlVal :=
  match k with
  | "bug_id" => some (SqlVal.s r.bug_id)
  | "title" => some r.title
  | "description" => some r.description
  | "steps_to_reproduce" => some r.steps_to_reproduce
  | "expected_result" => some r.expected_result
  | "actual_result" => some r.actual_result
  | "priority" => some r.priority
  | "severity" => some r.severity
  | "category" => some r.category
  | "type" => some r.type
  | "status" => some r.status
  | "resolution" => some r.resolution
  | "linked_tests" => some r.linked_tests
  | "related_bugs" => some r.related_bugs
  | "parent_bug_id" => some r.parent_bug_id
  | "module_id" => some r.module_id
  | "session_id" => some r.session_id
  | "reporter_id" => some r.reporter_id
  | "reporter_name" => some r.reporter_name
  | "reporter_email" => some r.reporter_email
  | "assignee_id" => some r.assignee_id
  | "assignee_name" => some r.assignee_name
  | "assignee_email" => some r.assignee_email
  | "verifier_id" => some r.verifier_id
  | "verifier_name" => some r.verifier_name
  | "verifier_email" => some r.verifier_email
  | "environment" => some r.environment
  | "found_in_version" => some r.found_in_version
  | "fixed_in_version" => some r.fixed_in_version
  | "target_release" => some r.target_release
  | "created_at" => some r.created_at
  | "updated_at" => some r.updated_at
  | "resolved_at" => some r.resolved_at
  | "verified_at" => some r.verified_at
  | "attachments" => some r.attachments
  | "tags" => some r.tags
  | "is_deleted" => some r.is_deleted
  | _ => none

/-- Apply one `SET column = value` clause to a bugs row (`bug_id`,
`created_at` and `id` are excluded before this point). -/
def applyBugSet (r : BugRow) (k : String) (v : SqlVal) : BugRow :=
  match k with
  | "title" => { r with title := v }
  | "description" => { r with description := v }
  | "steps_to_reproduce" => { r with steps_to_reproduce := v }
  | "expected_result" => { r with expected_result := v }
  | "actual_result" => { r with actual_result := v }
  | "priority" => { r with priority := v }
  | "severity" => { r with severity := v }
  | "category" => { r with category := v }
  | "type" => { r with type := v }
  | "status" => { r with status := v }
  | "resolution" => { r with resolution := v }
  | "linked_tests" => { r with linked_tests := v }
  | "related_bugs" => { r with related_bugs := v }
  | "parent_bug_id" => { r with parent_bug_id := v }
  | "module_id" => { r with module_id := v }
  | "session_id" => { r with session_id := v }
  | "reporter_id" => { r with reporter_id := v }
  | "reporter_name" => { r with reporter_name := v }
  | "reporter_email" => { r with reporter_email := v }
  | "assignee_id" => { r with assignee_id := v }
  | "assignee_name" => { r with assignee_name := v }
  | "assignee_email" => { r with assignee_email := v }
  | "verifier_id" => { r with verifier_id := v }
  | "verifier_name" => { r with verifier_name := v }
  | "verifier_email" => { r with verifier_email := v }
  | "environment" => { r with environment := v }
  | "found_in_version" => { r with found_in_version := v }
  | "fixed_in_version" => { r with fixed_in_version := v }
  | "target_release" => { r with target_release := v }
  | "updated_at" => { r with updated_at := v }
  | "resolved_at" => { r with resolved_at := v }
  | "verified_at" => { r with verified_at := v }
  | "attachments" => { r with attachments := v }
  | "tags" => { r with tags := v }
  | "is_deleted" => { r with is_deleted := v }
  | _ => r

/-- Membership test of a CHECK `col IN (...)` constraint: NULL makes the
expression NULL, which SQLite treats as passing. -/
def checkIn (v : SqlVal) (vals : List String) : Bool :=
  match v with
  | SqlVal.null => true
  | SqlVal.s s => vals.contains s
  | SqlVal.i _ => false

/-- CHECK constraints of the `bugs` table.  The `resolution` constraint
lists NULL among its IN values, so it can never evaluate to false and is
omitted. -/
def bugChecksOk (r : BugRow) : Bool :=
  checkIn r.priority ["P1", "P2", "P3", "P4"] &&
  checkIn r.severity ["Critical", "Major", "Minor", "Trivial"] &&
  checkIn r.type ["Functional", "UI", "Performance", "Security", "Other"] &&
  checkIn r.status
    ["New", "Triaged", "Assigned", "In Progress", "Fixed", "Ready for Test",
     "Verified", "Closed", "Reopened", "Rejected"]

/-- One row of the `bug_history` table (identifier and timestamp columns
the handlers never read are omitted). -/
structure BugHistRow where
  bug_id : String
  action : String
  field_name : SqlVal
  old_value : SqlVal
  new_value : SqlVal
  changed_by_id : SqlVal
  changed_by_name : SqlVal
deriving Repr, DecidableEq

/-- The JSON-encoded columns of the bug update handler. -/
def bugJsonFields : List String :=
  ["steps_to_reproduce", "linked_tests", "related_bugs", "environment", "tags", "attachments"]

/-- Value preprocessing of `PUT /api/bugs/:bug_id`: JSON fields are
stringified, every other value is used as sent. -/
def bugProcess (k : String) (v : Json) : Json :=
  if bugJsonFields.contains k then Json.str (stringify v) else v

/-- Keys the bug update keeps (`id`, `bug_id`, `created_at` are skipped). -/
def bugKeyKept (k : String) : Bool :=
  !(k == "id") && !(k == "bug_id") && !(k == "created_at")

/-- Bind a possibly-absent body property (JavaScript `undefined` binds as
NULL). -/
def bindU (o : Option Json) : Option SqlVal :=
  match o with
  | some v => bindJs v
  | none => some SqlVal.null

/-- The history trigger of the bug update: `currentBug[key] !== value`
after preprocessing (an unknown column reads back `undefined`, which is
strictly unequal to any sent value). -/
def bugChanged (cur : BugRow) (k : String) (v : Json) : Bool :=
  match getBugCol cur k with
  | some sv => !(jsStrictEq (jsOfSql sv) (bugProcess k v))
  | none => true

/-- The `bug_history` row the update inserts for one changed field;
`none` when a parameter is unbindable, in which case the fire-and-forget
insert fails and no row is appended. -/
def mkBugHist (bid : String) (cbid cbname : Option Json) (cur : BugRow) (k : String)
    (v : Json) : Option BugHistRow :=
  match bindJs (bugProcess k v), bindU cbid, bindU cbname with
  | some nv, some ci, some cn =>
    some { bug_id := bid, action := "Updated", field_name := SqlVal.s k,
           old_value := (match getBugCol cur k with | some sv => affText sv | none => SqlVal.null),
           new_value := affText nv, changed_by_id := affText ci, changed_by_name := affText cn }
  | _, _, _ => none

/-- The `Object.keys(updates).forEach` loop of `PUT /api/bugs/:bug_id`:
collects the `SET` clauses (preprocessed values, in body order) and the
history rows inserted along the way. -/
def bugLoop (bid : String) (cbid cbname : Option Json) (cur : BugRow) :
    List (String × Json) → List (String × Json) × List BugHistRow
  | [] => ([], [])
  | (k, v) :: rest =>
    let acc := bugLoop bid cbid cbname cur rest
    if bugKeyKept k then
      ((k, v) :: acc.1,
       (if bugChanged cur k v then (mkBugHist bid cbid cbname cur k v).toList else []) ++ acc.2)
    else acc

/-- `PUT /api/bugs/:bug_id` (`server.js`).  Returns the response, the new
`bugs` table and the `bug_history` rows appended.  History inserts run
before the main UPDATE, so they persist even when the UPDATE fails
(unknown column, unbindable value, CHECK violation — all reported 500). -/
def updateBug (now : Nat) (s : List BugRow) (bid : String)
    (updates : List (String × Json)) : HResp × List BugRow × List BugHistRow :=
  let cbid := updates.lookup "changed_by_id"
  let cbname := updates.lookup "changed_by_name"
  let eff := updates.filter (fun kv =>
    !(kv.1 == "changed_by_id") && !(kv.1 == "changed_by_name"))
  match s.find? (fun r => r.bug_id == bid) with
  | none => (HResp.notFound "Bug not found", s, [])
  | some cur =>
    let lp := bugLoop bid cbid cbname cur eff
    let hist := lp.2
    if lp.1.isEmpty then (HResp.ok, s, hist)
    else if lp.1.all (fun kv => bugsColumns.contains kv.1) then
      match bindAll bugProcess lp.1 with
      | none => (HResp.serverError, s, hist)
      | some pairs =>
        let s2 := s.map (fun r =>
          if r.bug_id == bid then
            { pairs.foldl (fun acc kv => applyBugSet acc kv.1 kv.2) r with
              updated_at := SqlVal.i now }
          else r)
        if s2.all bugChecksOk then (HResp.ok, s2, hist) else (HResp.serverError, s, hist)
    else (HResp.serverError, s, hist)

/-- The row transformation of the bug soft delete: the matched row gets
`is_deleted = 1`, `status = 'Rejected'`, `resolution = 'Won''t Fix'` and a
fresh `updated_at`; every other row is untouched. -/
def bugDeleteRow (now : Nat) (bid : String) (r : BugRow) : BugRow :=
  if r.bug_id == bid then
    { r with is_deleted := SqlVal.i 1, status := SqlVal.s "Rejected",
             resolution := SqlVal.s "Won't Fix", updated_at := SqlVal.i now }
  else r

/-- `DELETE /api/bugs/:bug_id` (`server.js`): a soft delete — one UPDATE
setting `is_deleted = 1`, `status = 'Rejected'`, `resolution = 'Won''t Fix'`
and refreshing `updated_at`, then (on success) one history insert. -/
def deleteBug (now : Nat) (s : List BugRow) (bid : String)
    (deleted_by_id deleted_by_name : Option Json) : HResp × List BugRow × List BugHistRow :=
  let changes := (s.filter (fun r => r.bug_id == bid)).length
  if changes = 0 then (HResp.notFound "Bug not found", s, [])
  else
    let s2 := s.map (bugDeleteRow now bid)
    if s2.all bugChecksOk then
      let hist :=
        match bindJs (jsOr (deleted_by_id.getD Json.null) (Json.str "System")),
            bindJs (jsOr (deleted_by_name.getD Json.null) (Json.str "System")) with
        | some di, some dn =>
          [{ bug_id := bid, action := "Deleted", field_name := SqlVal.s "is_deleted",
             old_value := SqlVal.null, new_value := SqlVal.s "true",
             changed_by_id := affText di, changed_by_name := affText dn }]
        | _, _ => []
      (HResp.ok, s2, hist)
    else (HResp.serverError, s, [])

/-- `GET /api/bugs/:bug_id` (`server.js`): `db.get` returns the first row
matching the id, with no `is_deleted` filter; the handler responds 404
exactly when there is none. -/
def getBugRow (s : List BugRow) (bid : String) : Option BugRow :=
  s.find? (fun r => r.bug_id == bid)

/-- `str.trim()`-free JavaScript `parseInt` on a query-string value:
optional surrounding whitespace, optional sign, then the longest digit
prefix; `none` is NaN. -/
def jsParseInt (s : String) : Option Int :=
  let cs := s.data.dropWhile isJsSpace
  let (neg, cs1) : Bool × List Char :=
    match cs with
    | '-' :: r => (true, r)
    | '+' :: r => (false, r)
    | r => (false, r)
  let ds := cs1.takeWhile Char.isDigit
  if ds = [] then none
  else
    let n : Nat := ds.foldl (fun a c => a * 10 + (c.toNat - 48)) 0
    some (if neg then -(n : Int) else (n : Int))

/-- SQLite `LIKE` matching over lower-cased character lists (`%` any run,
`_` any single character; LIKE is case-insensitive for ASCII). -/
def likeMatch : List Char → List Char → Bool
  | [], [] => true
  | [], _ :: _ => false
  | '%' :: ps, cs =>
    likeMatch ps cs ||
      (match cs with
       | [] => false
       | _ :: cs2 => likeMatch ('%' :: ps) cs2)
  | '_' :: ps, _ :: cs => likeMatch ps cs
  | '_' :: _, [] => false
  | p :: ps, c :: cs => p == c && likeMatch ps cs
  | _ :: _, [] => false
termination_by ps cs => ps.length + cs.length

/-- `column LIKE pattern` on a stored value (NULL yields NULL, excluding
the row; numeric values compare via their text form). -/
def sqlLikeV (v : SqlVal) (pat : String) : Bool :=
  match v with
  | SqlVal.s s => likeMatch (pat.data.map Char.toLower) (s.data.map Char.toLower)
  | SqlVal.i n => likeMatch (pat.data.map Char.toLower) ((toString n).data.map Char.toLower)
  | SqlVal.null => false

/-- `column = 'text'` on a stored value (NULL excludes the row; a TEXT
affinity column stores text, so a numeric value never matches). -/
def sqlEqText (v : SqlVal) (p : String) : Bool :=
  match v with
  | SqlVal.s s => s == p
  | _ => false

/-- `column != 'text'` on a stored value (NULL still excludes the row). -/
def sqlNeText (v : SqlVal) (p : String) : Bool :=
  match v with
  | SqlVal.s s => !(s == p)
  | SqlVal.i _ => true
  | SqlVal.null => false

/-- An optional query-string parameter taken by the handler's `if (x)`
truthiness test (present and nonempty). -/
def qActive (o : Option String) : Bool :=
  match o with
  | some s => !(s == "")
  | none => false

/-- Query parameters of `GET /api/bugs` (all arrive as strings). -/
structure BugListQuery where
  status : Option String := none
  priority : Option String := none
  severity : Option String := none
  assignee_id : Option String := none
  module_id : Option String := none
  search : Option String := none
  show_deleted : Option String := none
  show_rejected : Option String := none
  limit : Option String := none
  offset : Option String := none

/-- The WHERE clause of `GET /api/bugs`: soft-delete visibility filters
only when `show_deleted`/`show_rejected` are exactly `'false'`/`'true'`
(absent or `'all'` means no filter), then the exact-match and search
filters, combined with AND. -/
def bugQueryPred (q : BugListQuery) (r : BugRow) : Bool :=
  (match q.show_deleted with
   | some t =>
     if t == "false" then r.is_deleted == SqlVal.i 0 || r.is_deleted == SqlVal.null
     else if t == "true" then r.is_deleted == SqlVal.i 1
     else true
   | none => true) &&
  (match q.show_rejected with
   | some t =>
     if t == "false" then sqlNeText r.status "Rejected" || r.is_deleted == SqlVal.i 1
     else if t == "true" then
       sqlEqText r.status "Rejected" && (r.is_deleted == SqlVal.i 0 || r.is_deleted == SqlVal.null)
     else true
   | none => true) &&
  (if qActive q.status then sqlEqText r.status (q.status.getD "") else true) &&
  (if qActive q.priority then sqlEqText r.priority (q.priority.getD "") else true) &&
  (if qActive q.severity then sqlEqText r.severity (q.severity.getD "") else true) &&
  (if qActive q.assignee_id then sqlEqText r.assignee_id (q.assignee_id.getD "") else true) &&
  (if qActive q.module_id then sqlEqText r.module_id (q.module_id.getD "") else true) &&
  (if qActive q.search then
    sqlLikeV r.title ("%" ++ q.search.getD "" ++ "%") ||
      sqlLikeV r.description ("%" ++ q.search.getD "" ++ "%")
   else true)

/-- SQLite total order on storage values: NULL < numbers < text, numbers
by value, text by byte order. -/
def sqlLe (a b : SqlVal) : Bool :=
  match a, b with
  | SqlVal.null, _ => true
  | SqlVal.i _, SqlVal.null => false
  | SqlVal.i x, SqlVal.i y => x ≤ y
  | SqlVal.i _, SqlVal.s _ => true
  | SqlVal.s _, SqlVal.null => false
  | SqlVal.s _, SqlVal.i _ => false
  | SqlVal.s x, SqlVal.s y => x ≤ y

/-- Stable insertion of an element into a list sorted by `le`. -/
def insertLe (le : α → α → Bool) (x : α) : List α → List α
  | [] => [x]
  | y :: ys => if le x y then x :: y :: ys else y :: insertLe le x ys

/-- Stable insertion sort (the determinization of the unspecified
tie-order of `ORDER BY`). -/
def sortByLe (le : α → α → Bool) : List α → List α
  | [] => []
  | x :: xs => insertLe le x (sortByLe le xs)

/-- `LIMIT ?` with a possibly-NaN bound: SQLite treats a negative limit as
unbounded; a NaN bind (modelled `none`) becomes NULL, also unbounded. -/
def applyLimit (o : Option Int) (l : List α) : List α :=
  match o with
  | some n => if n < 0 then l else l.take n.toNat
  | none => l

/-- `OFFSET ?`: negative and NULL offsets skip nothing. -/
def applyOffset (o : Option Int) (l : List α) : List α :=
  match o with
  | some n => l.drop n.toNat
  | none => l

/-- `GET /api/bugs` (`server.js`): filter, `ORDER BY created_at DESC`,
then `LIMIT ? OFFSET ?` (defaults 100 and 0). -/
def listBugs (q : BugListQuery) (s : List BugRow) : List BugRow :=
  let filtered := s.filter (bugQueryPred q)
  let sorted := sortByLe (fun a b => sqlLe b.created_at a.created_at) filtered
  let lim := match q.limit with | none => some (100 : Int) | some t => jsParseInt t
  let off := match q.offset with | none => some (0 : Int) | some t => jsParseInt t
  applyLimit lim (applyOffset off sorted)

/-! ### Features (`upcoming_features` and `feature_history` tables, `server.js`) -/

/-- One row of the `upcoming_features` table (autoincrement `id` omitted;
`start_date`/`end_date` exist after the shipped date-columns migration). -/
structure FeatureRow where
  feature_id : String
  title : SqlVal := SqlVal.null
  description : SqlVal := SqlVal.null
  business_value : SqlVal := SqlVal.null
  user_story : SqlVal := SqlVal.null
  acceptance_criteria : SqlVal := SqlVal.null
  priority : SqlVal := SqlVal.s "P3"
  feature_type : SqlVal := SqlVal.s "Enhancement"
  category : SqlVal := SqlVal.null
  complexity : SqlVal := SqlVal.s "Medium"
  status : SqlVal := SqlVal.s "Planned"
  module_id : SqlVal := SqlVal.null
  target_version : SqlVal := SqlVal.null
  linked_tests : SqlVal := SqlVal.null
  related_features : SqlVal := SqlVal.null
  dependencies : SqlVal := SqlVal.null
  blocks : SqlVal := SqlVal.null
  creator_id : SqlVal := SqlVal.null
  creator_name : SqlVal := SqlVal.null
  creator_email : SqlVal := SqlVal.null
  owner_id : SqlVal := SqlVal.null
  owner_name : SqlVal := SqlVal.null
  owner_email : SqlVal := SqlVal.null
  developer_id : SqlVal := SqlVal.null
  developer_name : SqlVal := SqlVal.null
  developer_email : SqlVal := SqlVal.null
  tester_id : SqlVal := SqlVal.null
  tester_name : SqlVal := SqlVal.null
  tester_email : SqlVal := SqlVal.null
  estimated_hours : SqlVal := SqlVal.null
  actual_hours : SqlVal := SqlVal.null
  progress_percentage : SqlVal := SqlVal.i 0
  start_date : SqlVal := SqlVal.null
  end_date : SqlVal := SqlVal.null
  technical_notes : SqlVal := SqlVal.null
  api_endpoints : SqlVal := SqlVal.null
  database_changes : SqlVal := SqlVal.null
  dependencies_external : SqlVal := SqlVal.null
  created_at : SqlVal := SqlVal.null
  updated_at : SqlVal := SqlVal.null
  started_at : SqlVal := SqlVal.null
  completed_at : SqlVal := SqlVal.null
  released_at : SqlVal := SqlVal.null
  attachments : SqlVal := SqlVal.null
  tags : SqlVal := SqlVal.null
  is_deleted : SqlVal := SqlVal.i 0
deriving Repr, DecidableEq

/-- The `allowedFields` allow-list of `PUT /api/features/:feature_id`. -/
def featureAllowedFields : List String :=
  ["title", "description", "business_value", "user_story", "acceptance_criteria",
   "priority", "feature_type", "category", "complexity", "status",
   "module_id", "target_version",
   "owner_id", "owner_name", "owner_email",
   "developer_id", "developer_name", "developer_email",
   "tester_id", "tester_name", "tester_email",
   "estimated_hours", "actual_hours", "progress_percentage",
   "start_date", "end_date",
   "technical_notes", "api_endpoints", "database_changes", "dependencies_external",
   "started_at", "completed_at", "released_at",
   "tags", "is_deleted"]

/-- `oldFeature[key]` for a dynamic key (`none` is `undefined`). -/
def getFeatureCol (r : FeatureRow) (k : String) : Option SqlVal :=
  match k with
  | "feature_id" => some (SqlVal.s r.feature_id)
  | "title" => some r.title
  | "description" => some r.description
  | "business_value" => some r.business_value
  | "user_story" => some r.user_story
  | "acceptance_criteria" => some r.acceptance_criteria
  | "priority" => some r.priority
  | "feature_type" => some r.feature_type
  | "category" => some r.category
  | "complexity" => some r.complexity
  | "status" => some r.status
  | "module_id" => some r.module_id
  | "target_version" => some r.target_version
  | "linked_tests" => some r.linked_tests
  | "related_features" => some r.related_features
  | "dependencies" => some r.dependencies
  | "blocks" => some r.blocks
  | "creator_id" => some r.creator_id
  | "creator_name" => some r.creator_name
  | "creator_email" => some r.creator_email
  | "owner_id" => some r.owner_id
  | "owner_name" => some r.owner_name
  | "owner_email" => some r.owner_email
  | "developer_id" => some r.developer_id
  | "developer_name" => some r.developer_name
  | "developer_email" => some r.developer_email
  | "tester_id" => some r.tester_id
  | "tester_name" => some r.tester_name
  | "tester_email" => some r.tester_email
  | "estimated_hours" => some r.estimated_hours
  | "actual_hours" => some r.actual_hours
  | "progress_percentage" => some r.progress_percentage
  | "start_date" => some r.start_date
  | "end_date" => some r.end_date
  | "technical_notes" => some r.technical_notes
  | "api_endpoints" => some r.api_endpoints
  | "database_changes" => some r.database_changes
  | "dependencies_external" => some r.dependencies_external
  | "created_at" => some r.created_at
  | "updated_at" => some r.updated_at
  | "started_at" => some r.started_at
  | "completed_at" => some r.completed_at
  | "released_at" => some r.released_at
  | "attachments" => some r.attachments
  | "tags" => some r.tags
  | "is_deleted" => some r.is_deleted
  | _ => none

/-- Apply one `SET column = value` clause to a features row (only
allow-listed keys reach this point). -/
def applyFSet (r : FeatureRow) (k : String) (v : SqlVal) : FeatureRow :=
  match k with
  | "title" => { r with title := v }
  | "description" => { r with description := v }
  | "business_value" => { r with business_value := v }
  | "user_story" => { r with user_story := v }
  | "acceptance_criteria" => { r with acceptance_criteria := v }
  | "priority" => { r with priority := v }
  | "feature_type" => { r with feature_type := v }
  | "category" => { r with category := v }
  | "complexity" => { r with complexity := v }
  | "status" => { r with status := v }
  | "module_id" => { r with module_id := v }
  | "target_version" => { r with target_version := v }
  | "owner_id" => { r with owner_id := v }
  | "owner_name" => { r with owner_name := v }
  | "owner_email" => { r with owner_email := v }
  | "developer_id" => { r with developer_id := v }
  | "developer_name" => { r with developer_name := v }
  | "developer_email" => { r with developer_email := v }
  | "tester_id" => { r with tester_id := v }
  | "tester_name" => { r with tester_name := v }
  | "tester_email" => { r with tester_email := v }
  | "estimated_hours" => { r with estimated_hours := v }
  | "actual_hours" => { r with actual_hours := v }
  | "progress_percentage" => { r with progress_percentage := v }
  | "start_date" => { r with start_date := v }
  | "end_date" => { r with end_date := v }
  | "technical_notes" => { r with technical_notes := v }
  | "api_endpoints" => { r with api_endpoints := v }
  | "database_changes" => { r with database_changes := v }
  | "dependencies_external" => { r with dependencies_external := v }
  | "started_at" => { r with started_at := v }
  | "completed_at" => { r with completed_at := v }
  | "released_at" => { r with released_at := v }
  | "tags" => { r with tags := v }
  | "is_deleted" => { r with is_deleted := v }
  | _ => r

/-- CHECK constraints of the `upcoming_features` table (NULL passes each). -/
def featureChecksOk (r : FeatureRow) : Bool :=
  checkIn r.priority ["P1", "P2", "P3", "P4"] &&
  checkIn r.feature_type
    ["New Feature", "Enhancement", "Improvement", "Technical Debt", "Refactoring"] &&
  checkIn r.complexity ["Low", "Medium", "High", "Very High"] &&
  checkIn r.status
    ["Planned", "In Design", "Ready for Dev", "In Development", "Code Review",
     "Ready for Test", "In Testing", "Test Failed", "Completed", "On Hold", "Cancelled"] &&
  (match r.progress_percentage with
   | SqlVal.null => true
   | SqlVal.i n => 0 ≤ n ∧ n ≤ 100
   | SqlVal.s _ => false)

/-- Value preprocessing of the feature update `SET` parameters: arrays and
(non-null) objects are stringified, everything else is bound as sent. -/
def featureProcess (v : Json) : Json :=
  match v with
  | Json.arr xs => Json.str (stringify (Json.arr xs))
  | Json.obj kvs => Json.str (stringify (Json.obj kvs))
  | w => w

mutual

/-- JavaScript `String(v)` for the values at hand (arrays join their
elements with commas, null elements becoming empty; plain objects print
`[object Object]`). -/
def jsToStringVal : Json → String
  | Json.null => "null"
  | Json.bool b => if b then "true" else "false"
  | Json.num lex => lex
  | Json.str s => s
  | Json.arr xs => jsArrToString xs
  | Json.obj _ => "[object Object]"

/-- `Array.prototype.toString`: elements joined by commas. -/
def jsArrToString : List Json → String
  | [] => ""
  | [Json.null] => ""
  | [x] => jsToStringVal x
  | Json.null :: y :: r => "," ++ jsArrToString (y :: r)
  | x :: y :: r => jsToStringVal x ++ "," ++ jsArrToString (y :: r)

end

/-- JavaScript `String(v || '')`, as the feature history insert applies to
its old/new values. -/
def jsDisplay (v : Json) : String :=
  if jsTruthy v then jsToStringVal v else ""

/-- One row of the `feature_history` table (columns the handlers never
read are omitted). -/
structure FeatHistRow where
  feature_id : String
  action : String
  field_name : SqlVal
  old_value : SqlVal
  new_value : SqlVal
  changed_by_name : SqlVal
deriving Repr, DecidableEq

/-- The history trigger of the feature update: `oldValue !== newValue`
compares the stored value against the RAW submitted value (not its
JSON-encoded form), so an array or object value is always a change. -/
def featureChanged (cur : FeatureRow) (k : String) (v : Json) : Bool :=
  match getFeatureCol cur k with
  | some sv => !(jsStrictEq (jsOfSql sv) v)
  | none => true

/-- The `feature_history` row inserted for one changed field (`none` when
the `changed_by_name` parameter is unbindable and the fire-and-forget
insert fails). -/
def mkFeatHist (fid : String) (cbn : Json) (cur : FeatureRow) (k : String) (v : Json) :
    Option FeatHistRow :=
  match bindJs cbn with
  | some cn =>
    some { feature_id := fid, action := "Field Updated", field_name := SqlVal.s k,
           old_value := SqlVal.s (jsDisplay (match getFeatureCol cur k with
             | some sv => jsOfSql sv
             | none => Json.null)),
           new_value := SqlVal.s (jsDisplay v), changed_by_name := affText cn }
  | none => none

/-- The `for (const [key, value] of Object.entries(updates))` loop of
`PUT /api/features/:feature_id`: allow-listed keys become `SET` clauses
(arrays/objects stringified) and the history rows fire for raw-changed
values.  `String(undefined || '')` is also `''`, covering the `none`
branch of `getFeatureCol`. -/
def featureLoop (fid : String) (cbn : Json) (cur : FeatureRow) :
    List (String × Json) → List (String × Json) × List FeatHistRow
  | [] => ([], [])
  | (k, v) :: rest =>
    let acc := featureLoop fid cbn cur rest
    if featureAllowedFields.contains k then
      ((k, featureProcess v) :: acc.1,
       (if featureChanged cur k v then (mkFeatHist fid cbn cur k v).toList else []) ++ acc.2)
    else acc

/-- `PUT /api/features/:feature_id` (`server.js`).  `changed_by_name`
defaults to `'Unknown'` and is removed from the payload; 404 when the id
is absent; `'No valid fields to update'` when nothing survives the
allow-list; history inserts precede the UPDATE. -/
def featureUpdate (now : Nat) (s : List FeatureRow) (fid : String)
    (updates : List (String × Json)) : HResp × List FeatureRow × List FeatHistRow :=
  let cbn := jsOr ((updates.lookup "changed_by_name").getD Json.null) (Json.str "Unknown")
  let eff := updates.filter (fun kv => !(kv.1 == "changed_by_name"))
  match s.find? (fun r => r.feature_id == fid) with
  | none => (HResp.notFound "Feature not found", s, [])
  | some cur =>
    let lp := featureLoop fid cbn cur eff
    let hist := lp.2
    if lp.1.isEmpty then (HResp.badRequest "No valid fields to update", s, hist)
    else
      match bindAll (fun _ v => v) lp.1 with
      | none => (HResp.serverError, s, hist)
      | some pairs =>
        let s2 := s.map (fun r =>
          if r.feature_id == fid then
            { pairs.foldl (fun acc kv => applyFSet acc kv.1 kv.2) r with
              updated_at := SqlVal.i now }
          else r)
        if s2.all featureChecksOk then (HResp.ok, s2, hist)
        else (HResp.serverError, s, hist)

/-! ### Users (`users` table; legacy handlers in `server.js` and the
TypeScript router in `src/routes/users.ts`, which target differently
shaped `users` tables) -/

/-- One row of the legacy `users` table (`server.js`: TEXT primary key,
`status` flag). -/
structure UserRow where
  id : String
  email : SqlVal := SqlVal.null
  password : SqlVal := SqlVal.null
  name : SqlVal := SqlVal.null
  role : SqlVal := SqlVal.s "tester"
  status : SqlVal := SqlVal.s "active"
  created_at : SqlVal := SqlVal.null
  created_by : SqlVal := SqlVal.null
  last_login : SqlVal := SqlVal.null
  updated_at : SqlVal := SqlVal.null
deriving Repr, DecidableEq

/-- Column names of the legacy `users` table. -/
def usersColumns : List String :=
  ["id", "email", "password", "name", "role", "status", "created_at", "created_by",
   "last_login", "updated_at"]

/-- Apply one `SET column = value` clause to a legacy users row. -/
def applyUserSet (r : UserRow) (k : String) (v : SqlVal) : UserRow :=
  match k with
  | "email" => { r with email := v }
  | "password" => { r with password := v }
  | "name" => { r with name := v }
  | "role" => { r with role := v }
  | "status" => { r with status := v }
  | "created_by" => { r with created_by := v }
  | "last_login" => { r with last_login := v }
  | "updated_at" => { r with updated_at := v }
  | _ => r

/-- `PUT /api/users/:id` (`server.js`): every key but `id`/`created_at` is
kept, `email` is lower-cased (a non-string email makes `.toLowerCase()`
throw, which Express reports as a server error before any write); an
empty field list is rejected with `'No fields to update'` and no write. -/
def putUser (now : Nat) (s : List UserRow) (uid : String)
    (updates : List (String × Json)) : HResp × List UserRow :=
  let flds := updates.filter (fun kv => !(kv.1 == "id") && !(kv.1 == "created_at"))
  if flds.any (fun kv =>
      kv.1 == "email" && (match kv.2 with | Json.str _ => false | _ => true)) then
    (HResp.serverError, s)
  else if flds.isEmpty then (HResp.badRequest "No fields to update", s)
  else if flds.all (fun kv => usersColumns.contains kv.1) then
    match bindAll
        (fun k v =>
          if k == "email" then
            match v with
            | Json.str t => Json.str (asciiLower t)
            | w => w
          else v)
        flds with
    | none => (HResp.serverError, s)
    | some pairs =>
      let changes := (s.filter (fun r => r.id == uid)).length
      if changes = 0 then (HResp.notFound "User not found", s)
      else
        (HResp.ok,
         s.map (fun r =>
           if r.id == uid then
             { pairs.foldl (fun acc kv => applyUserSet acc kv.1 kv.2) r with
               updated_at := SqlVal.i now }
           else r))
  else (HResp.serverError, s)

/-- `DELETE /api/users/:id` (`server.js`): counts the OTHER admins, then
fetches the target; a missing id is 404; the last admin is rejected with
HTTP 400 `'Cannot delete the last admin user'`; otherwise the row is
REMOVED from storage (`DELETE FROM users`). -/
def deleteUserServer (s : List UserRow) (uid : String) : HResp × List UserRow :=
  let adminCount := (s.filter (fun r => sqlEqText r.role "admin" && !(r.id == uid))).length
  match s.find? (fun r => r.id == uid) with
  | none => (HResp.notFound "User not found", s)
  | some u =>
    if u.role == SqlVal.s "admin" && adminCount == 0 then
      (HResp.badRequest "Cannot delete the last admin user", s)
    else (HResp.ok, s.filter (fun r => !(r.id == uid)))

/-- `GET /api/users/:id` (`server.js`). -/
def getUserServer (s : List UserRow) (uid : String) : Option UserRow :=
  s.find? (fun r => r.id == uid)

/-- One row of the TypeScript app's `users` table (`src/database/init`:
INTEGER primary key, `is_active` flag). -/
structure TsUserRow where
  id : Int
  email : SqlVal := SqlVal.null
  password : SqlVal := SqlVal.null
  name : SqlVal := SqlVal.null
  role : SqlVal := SqlVal.s "tester"
  is_active : SqlVal := SqlVal.i 1
  created_at : SqlVal := SqlVal.null
  updated_at : SqlVal := SqlVal.null
deriving Repr, DecidableEq

/-- The `WHERE id = ?` match of the TypeScript router: the string route
parameter is converted by the INTEGER column's affinity, so it matches
exactly when it reads as the row's integer id. -/
def tsUserIdMatch (r : TsUserRow) (uid : String) : Bool :=
  some r.id == intLex? uid

/-- `DELETE /api/users/:id` (`src/routes/users.ts`): a single
`UPDATE users SET is_active = 0 WHERE id = ?` — a soft deactivation with
NO last-admin rule; 404 exactly when no row matches. -/
def tsDeleteUser (s : List TsUserRow) (uid : String) : HResp × List TsUserRow :=
  let changes := (s.filter (fun r => tsUserIdMatch r uid)).length
  if changes = 0 then (HResp.notFound "User not found", s)
  else
    (HResp.ok,
     s.map (fun r => if tsUserIdMatch r uid then { r with is_active := SqlVal.i 0 } else r))

/-- `GET /api/users/:id` (`src/routes/users.ts`): no `is_active` filter. -/
def tsGetUser (s : List TsUserRow) (uid : String) : Option TsUserRow :=
  s.find? (fun r => tsUserIdMatch r uid)

/-! ### Custom tests (`custom_tests` table, `server.js`) -/

/-- One row of the `custom_tests` table (autoincrement `id` omitted). -/
structure CustomTestRow where
  test_id : String
  title : SqlVal := SqlVal.null
  description : SqlVal := SqlVal.null
  module : SqlVal := SqlVal.null
  category : SqlVal := SqlVal.null
  priority : SqlVal := SqlVal.s "Medium"
  steps : SqlVal := SqlVal.null
  expected_result : SqlVal := SqlVal.null
  prerequisites : SqlVal := SqlVal.null
  test_data : SqlVal := SqlVal.null
  created_by : SqlVal := SqlVal.null
  created_at : SqlVal := SqlVal.null
  updated_at : SqlVal := SqlVal.null
  is_active : SqlVal := SqlVal.i 1
  tags : SqlVal := SqlVal.null
deriving Repr, DecidableEq

/-- Column names of the `custom_tests` table. -/
def customTestsColumns : List String :=
  ["id", "test_id", "title", "description", "module", "category", "priority", "steps",
   "expected_result", "prerequisites", "test_data", "created_by", "created_at",
   "updated_at", "is_active", "tags"]

/-- Apply one `SET column = value` clause to a custom-tests row. -/
def applyCtSet (r : CustomTestRow) (k : String) (v : SqlVal) : CustomTestRow :=
  match k with
  | "title" => { r with title := v }
  | "description" => { r with description := v }
  | "module" => { r with module := v }
  | "category" => { r with category := v }
  | "priority" => { r with priority := v }
  | "steps" => { r with steps := v }
  | "expected_result" => { r with expected_result := v }
  | "prerequisites" => { r with prerequisites := v }
  | "test_data" => { r with test_data := v }
  | "created_by" => { r with created_by := v }
  | "updated_at" => { r with updated_at := v }
  | "is_active" => { r with is_active := v }
  | "tags" => { r with tags := v }
  | _ => r

/-- JSON-encoded columns of the custom-test update. -/
def ctProcess (k : String) (v : Json) : Json :=
  if k == "steps" || k == "prerequisites" || k == "tags" then Json.str (stringify v) else v

/-- `PUT /api/custom-tests/:test_id` (`server.js`).  Unlike the user and
version updates, there is NO empty-field check: `updated_at =
CURRENT_TIMESTAMP` is always appended, so an empty body still issues a
timestamp-only write (404 only when the id matches no row). -/
def putCustomTest (now : Nat) (s : List CustomTestRow) (tid : String)
    (updates : List (String × Json)) : HResp × List CustomTestRow :=
  let flds := updates.filter (fun kv =>
    !(kv.1 == "test_id") && !(kv.1 == "id") && !(kv.1 == "created_at"))
  if flds.all (fun kv => customTestsColumns.contains kv.1) then
    match bindAll ctProcess flds with
    | none => (HResp.serverError, s)
    | some pairs =>
      let changes := (s.filter (fun r => r.test_id == tid)).length
      if changes = 0 then (HResp.notFound "Test not found", s)
      else
        (HResp.ok,
         s.map (fun r =>
           if r.test_id == tid then
             { pairs.foldl (fun acc kv => applyCtSet acc kv.1 kv.2) r with
               updated_at := SqlVal.i now }
           else r))
  else (HResp.serverError, s)

/-! ### Statistics (`GET /api/statistics` and
`GET /api/versions/:version_id/statistics`, `server.js`) -/

/-- The `testsByStatus` bucket key of the dashboard endpoint
`GET /api/statistics`: `UPPER(status)` — with NO trim — maps the four
recognized spellings to canonical buckets; anything else groups by the
raw stored string. -/
def statusKeyGlobal (st : String) : String :=
  if asciiUpper st == "PASS" then "Pass"
  else if asciiUpper st == "FAIL" then "Fail"
  else if asciiUpper st == "BLOCKED" then "Blocked"
  else if asciiUpper st == "NOT STARTED" then "Not Started"
  else st

/-- The `testsByStatus` bucket key of the per-version endpoint
`GET /api/versions/:version_id/statistics`: `UPPER(TRIM(status))` maps the
recognized families to canonical buckets; anything else groups by the
trimmed (but not case-folded) stored string. -/
def statusKeyVersion (st : String) : String :=
  let u := asciiUpper (sqlTrim st)
  if u == "PASS" || u == "PASSED" then "Pass"
  else if u == "FAIL" || u == "FAILED" then "Fail"
  else if u == "BLOCKED" then "Blocked"
  else if u == "NOT STARTED" || u == "NOTSTARTED" then "Not Started"
  else sqlTrim st

/-- Add one occurrence of a key to running group counts (first-occurrence
order determinizes the unspecified `GROUP BY` output order). -/
def bumpKey (k : String) : List (String × Nat) → List (String × Nat)
  | [] => [(k, 1)]
  | (k2, n) :: rest => if k2 == k then (k2, n + 1) :: rest else (k2, n) :: bumpKey k rest

/-- `SELECT key, COUNT(*) ... GROUP BY key` over a list of stored status
strings. -/
def groupCounts (key : String → String) (rows : List String) : List (String × Nat) :=
  rows.foldl (fun acc st => bumpKey (key st) acc) []

/-- `testsByStatus` of `GET /api/statistics` over the stored (non-NULL)
status strings of `test_results`. -/
def testsByStatusGlobal (statuses : List String) : List (String × Nat) :=
  groupCounts statusKeyGlobal statuses

/-- `testsByStatus` of `GET /api/versions/:version_id/statistics` over the
stored status strings of the version's joined test results. -/
def testsByStatusVersion (statuses : List String) : List (String × Nat) :=
  groupCounts statusKeyVersion statuses

/-! ### Concrete sample rows (used by the witnesses and counterexamples) -/

/-- A stored bug with five populated fields (for the history tests). -/
def sampleBug : BugRow :=
  { bug_id := "BUG-2", title := SqlVal.s "old", description := SqlVal.s "d",
    priority := SqlVal.s "P3", status := SqlVal.s "New", tags := SqlVal.s "[\"x\"]",
    created_at := SqlVal.i 0, updated_at := SqlVal.i 0 }

/-- A stored feature whose `tags` column holds the serialized array
`["a"]` (for the history tests). -/
def sampleFeature : FeatureRow :=
  { feature_id := "F1", title := SqlVal.s "t", module_id := SqlVal.s "m",
    target_version := SqlVal.s "v", creator_name := SqlVal.s "c",
    tags := SqlVal.s "[\"a\"]", created_at := SqlVal.i 0, updated_at := SqlVal.i 0 }

/-- A stored bug for the soft-delete tests. -/
def deletableBug : BugRow :=
  { bug_id := "BUG-1", title := SqlVal.s "t", status := SqlVal.s "New",
    created_at := SqlVal.i 0, updated_at := SqlVal.i 0 }

/-- A one-version store for the not-found mutation test. -/
def soleVersion : VersionRow :=
  { version_id := "VER_1", version_number := SqlVal.s "1.0",
    version_name := SqlVal.s "one", description := SqlVal.null,
    release_date := SqlVal.null, status := SqlVal.s "active",
    is_current := SqlVal.i 1, features := SqlVal.s "[]", bug_fixes := SqlVal.s "[]",
    known_issues := SqlVal.s "[]", created_by := SqlVal.s "x",
    created_at := SqlVal.i 0, updated_at := SqlVal.i 0 }

/-- The sole admin of a legacy-users store. -/
def soleAdmin : UserRow := { id := "admin-001", role := SqlVal.s "admin" }

/-- A second admin. -/
def otherAdmin : UserRow := { id := "admin-002", role := SqlVal.s "admin" }

/-- A non-admin user. -/
def plainTester : UserRow := { id := "tester-001", role := SqlVal.s "tester" }

/-- The sole admin of the TypeScript app's users table. -/
def tsSoleAdmin : TsUserRow := { id := 1, role := SqlVal.s "admin", is_active := SqlVal.i 1 }

/-- A stored custom test for the empty-update test. -/
def sampleCustomTest : CustomTestRow := { test_id := "T1", updated_at := SqlVal.i 0 }

/-!
## Theorems
-/

/-- C1 — counterexample.  The decoder's first branch also catches the
literal string `"undefined"`: it does not parse as JSON and contains no
comma or newline, so the claimed contract demands the single-element list
`["undefined"]` for an array fallback, but the code returns the fallback
itself. -/
theorem safeJsonParse_undefined_refutes :
    jsonParse "undefined" = none ∧
    safeJsonParse "undefined" (Json.arr []) = Json.arr [] ∧
    Json.arr [] ≠ Json.arr [Json.str "undefined"] := by
  refine ⟨rfl, rfl, ?_⟩
  simp

/-- C1 (amended): `safeJsonParse` never throws (it is a total function)
and returns the fallback when the stored string is empty, `"null"` OR the
literal `"undefined"`; otherwise the parsed value when the string is valid
JSON; otherwise, for an array fallback, the trimmed non-empty tokens of a
comma/newline split (`"a,b,c"` decodes to `["a","b","c"]`) or the
single-element wrap (`"single"` decodes to `["single"]`); and in every
remaining case the fallback. -/
theorem safeJsonParse_contract (raw : String) (fb : Json) :
    (raw = "" ∨ raw = "null" ∨ raw = "undefined" → safeJsonParse raw fb = fb) ∧
    (¬(raw = "" ∨ raw = "null" ∨ raw = "undefined") →
      (∀ v, jsonParse raw = some v → safeJsonParse raw fb = v) ∧
      (jsonParse raw = none →
        (∀ xs, fb = Json.arr xs →
          safeJsonParse raw fb =
            (if raw.data.contains ',' || raw.data.contains '\n' then
              Json.arr ((((jsSplitDelims raw).map jsTrim).filter
                (fun t => !(t == ""))).map Json.str)
            else Json.arr [Json.str raw])) ∧
        ((∀ xs, fb ≠ Json.arr xs) → safeJsonParse raw fb = fb))) ∧
    safeJsonParse "a,b,c" (Json.arr []) = Json.arr [Json.str "a", Json.str "b", Json.str "c"] ∧
    safeJsonParse "single" (Json.arr []) = Json.arr [Json.str "single"] := by
  refine ⟨?_, ?_, rfl, rfl⟩
  · rintro (h | h | h) <;> subst h <;> rfl
  · intro h
    have h1 : raw ≠ "" := fun e => h (Or.inl e)
    have h2 : raw ≠ "null" := fun e => h (Or.inr (Or.inl e))
    have h3 : raw ≠ "undefined" := fun e => h (Or.inr (Or.inr e))
    have hb : (raw == "" || raw == "null" || raw == "undefined") = false := by
      simp [h1, h2, h3]
    refine ⟨?_, ?_⟩
    · intro v hv
      simp [safeJsonParse, hb, hv]
    · intro hn
      refine ⟨?_, ?_⟩
      · intro xs hxs
        subst hxs
        simp only [safeJsonParse, hb, hn, Bool.false_eq_true, if_false]
      · intro hfb
        cases fb with
        | arr xs => exact absurd rfl (hfb xs)
        | null => simp [safeJsonParse, hb, hn]
        | bool b => simp [safeJsonParse, hb, hn]
        | num lex => simp [safeJsonParse, hb, hn]
        | str s => simp [safeJsonParse, hb, hn]
        | obj kvs => simp [safeJsonParse, hb, hn]

/-- C1 — witness instantiating `safeJsonParse_contract` on concrete
inputs for each hypothesis-guarded branch. -/
theorem safeJsonParse_contract_witness :
    safeJsonParse "" Json.null = Json.null ∧
    safeJsonParse "[1]" Json.null = Json.arr [Json.num "1"] ∧
    safeJsonParse "plain" Json.null = Json.null :=
  ⟨(safeJsonParse_contract "" Json.null).1 (Or.inl rfl),
   ((safeJsonParse_contract "[1]" Json.null).2.1 (by simp)).1 (Json.arr [Json.num "1"]) rfl,
   (((safeJsonParse_contract "plain" Json.null).2.1 (by simp)).2 rfl).2
     (fun xs h => Json.noConfusion h)⟩

lemma vcount_cons (x : VersionRow) (l : List VersionRow) :
    versionCurrentCount (x :: l) =
      (if sqlTruthyJs x.is_current then 1 else 0) + versionCurrentCount l := by
  by_cases h : sqlTruthyJs x.is_current <;>
    simp [versionCurrentCount, List.filter_cons, h, Nat.add_comm]

lemma vcount_map_zero (f : VersionRow → VersionRow) :
    ∀ s : List VersionRow, (∀ r ∈ s, sqlTruthyJs (f r).is_current = false) →
      versionCurrentCount (s.map f) = 0 := by
  intro s
  induction s with
  | nil => intro _; rfl
  | cons r t ih =>
    intro h
    rw [List.map_cons, vcount_cons, h r (List.mem_cons_self r t),
      ih (fun x hx => h x (List.mem_cons_of_mem r hx))]
    simp

lemma vcount_map_mono (f : VersionRow → VersionRow) :
    ∀ s : List VersionRow,
      (∀ r ∈ s, sqlTruthyJs (f r).is_current = true → sqlTruthyJs r.is_current = true) →
      versionCurrentCount (s.map f) ≤ versionCurrentCount s := by
  intro s
  induction s with
  | nil => intro _; exact Nat.le_refl _
  | cons r t ih =>
    intro h
    rw [List.map_cons, vcount_cons, vcount_cons]
    have hrec := ih (fun x hx => h x (List.mem_cons_of_mem r hx))
    by_cases hfr : sqlTruthyJs (f r).is_current = true
    · rw [hfr, h r (List.mem_cons_self r t) hfr]
      omega
    · rw [Bool.not_eq_true] at hfr
      rw [hfr]
      by_cases hr : sqlTruthyJs r.is_current <;> simp [hr] <;> omega

lemma vcount_le_one_target (vid : String) (g f : VersionRow → VersionRow) :
    ∀ s : List VersionRow, (s.map VersionRow.version_id).Nodup →
      (∀ r ∈ s, r.version_id ≠ vid → sqlTruthyJs (f r).is_current = false) →
      versionCurrentCount
        (s.map (fun r => if r.version_id == vid then g r else f r)) ≤ 1 := by
  intro s
  induction s with
  | nil => intro _ _; exact Nat.zero_le _
  | cons r t ih =>
    intro hd hf
    rw [List.map_cons, List.nodup_cons] at hd
    rw [List.map_cons, vcount_cons]
    by_cases hr : r.version_id = vid
    · have htail : ∀ x ∈ t, x.version_id ≠ vid := by
        intro x hx he
        apply hd.1
        rw [hr, ← he]
        exact List.mem_map_of_mem VersionRow.version_id hx
      have hzero :
          versionCurrentCount
            (t.map (fun r => if r.version_id == vid then g r else f r)) = 0 := by
        apply vcount_map_zero
        intro x hx
        have hne := htail x hx
        simp only [beq_eq_false_iff_ne.mpr hne, Bool.false_eq_true, if_false]
        exact hf x (List.mem_cons_of_mem r hx) hne
      rw [hzero]
      simp only [beq_iff_eq.mpr hr, if_true]
      split <;> omega
    · have hb : (r.version_id == vid) = false := beq_eq_false_iff_ne.mpr hr
      simp only [hb, Bool.false_eq_true, if_false]
      rw [hf r (List.mem_cons_self r t) hr]
      have hrec := ih hd.2 (fun x hx => hf x (List.mem_cons_of_mem r hx))
      simpa using hrec

lemma ids_map_eq (f : VersionRow → VersionRow)
    (hf : ∀ r, (f r).version_id = r.version_id) (s : List VersionRow) :
    (s.map f).map VersionRow.version_id = s.map VersionRow.version_id := by
  induction s with
  | nil => rfl
  | cons r t ih => simp [hf, ih]

lemma applyVSet_version_id (r : VersionRow) (k : String) (v : SqlVal) :
    (applyVSet r k v).version_id = r.version_id := by
  unfold applyVSet
  split <;> rfl

lemma applyVSet_is_current_ne (r : VersionRow) (k : String) (v : SqlVal)
    (h : k ≠ "is_current") : (applyVSet r k v).is_current = r.is_current := by
  unfold applyVSet
  split <;> first | rfl | exact absurd rfl h

lemma foldl_applyVSet_version_id (pairs : List (String × SqlVal)) :
    ∀ r : VersionRow,
      (pairs.foldl (fun acc kv => applyVSet acc kv.1 kv.2) r).version_id = r.version_id := by
  induction pairs with
  | nil => intro r; rfl
  | cons kv rest ih =>
    intro r
    rw [List.foldl_cons, ih, applyVSet_version_id]

lemma foldl_applyVSet_is_current_mono (pairs : List (String × SqlVal)) :
    ∀ r : VersionRow,
      (∀ kv ∈ pairs, kv.1 = "is_current" → sqlTruthyJs kv.2 = false) →
      sqlTruthyJs
          ((pairs.foldl (fun acc kv => applyVSet acc kv.1 kv.2) r).is_current) = true →
      sqlTruthyJs r.is_current = true := by
  induction pairs with
  | nil => intro r _ h; exact h
  | cons kv rest ih =>
    intro r hfal h
    rw [List.foldl_cons] at h
    have hstep := ih (applyVSet r kv.1 kv.2)
      (fun x hx => hfal x (List.mem_cons_of_mem kv hx)) h
    by_cases hk : kv.1 = "is_current"
    · have hset : (applyVSet r kv.1 kv.2).is_current = kv.2 := by
        rw [hk]; rfl
      rw [hset, hfal kv (List.mem_cons_self kv rest) hk] at hstep
      exact absurd hstep (by simp)
    · rwa [applyVSet_is_current_ne r kv.1 kv.2 hk] at hstep

lemma bind_falsy (v : Json) (sv : SqlVal) (hb : bindJs v = some sv)
    (hf : jsTruthy v = false) : sqlTruthyJs sv = false := by
  cases v with
  | null =>
    simp only [bindJs, Option.some.injEq] at hb
    rw [← hb]; rfl
  | bool b =>
    simp only [jsTruthy] at hf
    subst hf
    simp only [bindJs, Option.some.injEq] at hb
    rw [← hb]; rfl
  | str s =>
    simp only [jsTruthy, Bool.not_eq_false', beq_iff_eq] at hf
    simp only [bindJs, Option.some.injEq] at hb
    rw [← hb, hf]; rfl
  | num lex =>
    simp only [jsTruthy, Bool.not_eq_false', beq_iff_eq] at hf
    simp only [bindJs, hf, Option.map_some', Option.some.injEq] at hb
    rw [← hb]; rfl
  | arr xs => simp [bindJs] at hb
  | obj kvs => simp [bindJs] at hb

lemma bindAll_mem (process : String → Json → Json) :
    ∀ (l : List (String × Json)) (pairs : List (String × SqlVal)),
      bindAll process l = some pairs →
      ∀ kv ∈ pairs, ∃ jv, (kv.1, jv) ∈ l ∧ bindJs (process kv.1 jv) = some kv.2 := by
  intro l
  induction l with
  | nil =>
    intro pairs h kv hkv
    simp only [bindAll, List.foldr_nil, Option.some.injEq] at h
    subst h
    exact absurd hkv (List.not_mem_nil kv)
  | cons e rest ih =>
    intro pairs h kv hkv
    simp only [bindAll, List.foldr_cons] at h
    cases hbe : bindJs (process e.1 e.2) with
    | none => rw [hbe] at h; simp at h
    | some sv =>
      rw [hbe] at h
      cases hrest : rest.foldr
          (fun kv acc => (bindJs (process kv.1 kv.2)).bind
            (fun sv => acc.map (fun rest => (kv.1, sv) :: rest))) (some []) with
      | none => rw [hrest] at h; simp at h
      | some prest =>
        rw [hrest] at h
        simp only [Option.some_bind, Option.map_some', Option.some.injEq] at h
        subst h
        rcases List.mem_cons.mp hkv with hkv | hkv
        · subst hkv
          exact ⟨e.2, List.mem_cons_self e rest, hbe⟩
        · obtain ⟨jv, hmem, hbind⟩ := ih prest hrest kv hkv
          exact ⟨jv, List.mem_cons_of_mem e hmem, hbind⟩

lemma lookup_of_mem_nodup :
    ∀ (l : List (String × Json)) (k : String) (v : Json),
      (l.map Prod.fst).Nodup → (k, v) ∈ l → l.lookup k = some v := by
  intro l
  induction l with
  | nil => intro k v _ h; exact absurd h (List.not_mem_nil _)
  | cons e rest ih =>
    obtain ⟨k0, v0⟩ := e
    intro k v hd hm
    rw [List.map_cons, List.nodup_cons] at hd
    rcases List.mem_cons.mp hm with heq | hmem
    · obtain ⟨h1, h2⟩ := (Prod.mk.injEq .. |>.mp heq)
      subst h1; subst h2
      simp [List.lookup]
    · have hk : k ≠ k0 := by
        intro he
        apply hd.1
        rw [← he]
        exact List.mem_map.mpr ⟨(k, v), hmem, rfl⟩
      simp only [List.lookup, beq_eq_false_iff_ne.mpr hk]
      exact ih k v hd.2 hmem

lemma vcount_append (a b : List VersionRow) :
    versionCurrentCount (a ++ b) = versionCurrentCount a + versionCurrentCount b := by
  simp [versionCurrentCount, List.filter_append]

lemma versionClearOthers_ids (now : Nat) (vid : String) (s : List VersionRow) :
    (versionClearOthers now vid s).map VersionRow.version_id =
      s.map VersionRow.version_id := by
  unfold versionClearOthers
  apply ids_map_eq
  intro r
  by_cases h : r.version_id = vid <;> simp [h]

lemma versionClearOthers_mem (now : Nat) (vid : String) (s : List VersionRow)
    (r : VersionRow) (hr : r ∈ versionClearOthers now vid s)
    (hne : r.version_id ≠ vid) : sqlTruthyJs r.is_current = false := by
  unfold versionClearOthers at hr
  obtain ⟨x, hx, hxe⟩ := List.mem_map.mp hr
  by_cases h : x.version_id = vid
  · rw [if_neg (fun hc => hc h)] at hxe
    exact absurd (hxe ▸ h) hne
  · rw [if_pos h] at hxe
    rw [← hxe]
    rfl

lemma versionClearOthers_count (now : Nat) (vid : String) (s : List VersionRow)
    (hnd : (s.map VersionRow.version_id).Nodup) :
    versionCurrentCount (versionClearOthers now vid s) ≤ 1 := by
  have he : versionClearOthers now vid s
      = s.map (fun r => if r.version_id == vid then r
          else { r with is_current := SqlVal.i 0, updated_at := SqlVal.i now }) := by
    unfold versionClearOthers
    congr 1
    funext r
    by_cases h : r.version_id = vid <;> simp [h]
  rw [he]
  exact vcount_le_one_target vid _ _ s hnd (fun r _ _ => rfl)

lemma versionClearAll_ids (now : Nat) (s : List VersionRow) :
    (versionClearAll now s).map VersionRow.version_id = s.map VersionRow.version_id := by
  unfold versionClearAll
  apply ids_map_eq
  intro r
  rfl

lemma versionClearAll_count (now : Nat) (s : List VersionRow) :
    versionCurrentCount (versionClearAll now s) = 0 := by
  unfold versionClearAll
  exact vcount_map_zero _ s (fun r _ => rfl)

lemma versionClearAll_mem (now : Nat) (s : List VersionRow) (r : VersionRow)
    (hr : r ∈ versionClearAll now s) : sqlTruthyJs r.is_current = false := by
  unfold versionClearAll at hr
  obtain ⟨x, hx, hxe⟩ := List.mem_map.mp hr
  rw [← hxe]
  rfl

lemma versionApplyTo_ids (now : Nat) (vid : String) (pairs : List (String × SqlVal))
    (s : List VersionRow) :
    (versionApplyTo now vid pairs s).map VersionRow.version_id =
      s.map VersionRow.version_id := by
  unfold versionApplyTo
  apply ids_map_eq
  intro r
  by_cases h : (r.version_id == vid) = true
  · simp only [h, if_true]
    exact foldl_applyVSet_version_id pairs r
  · rw [Bool.not_eq_true] at h
    simp [h]

lemma versionApplyTo_count_le_one (now : Nat) (vid : String)
    (pairs : List (String × SqlVal)) (s1 : List VersionRow)
    (hnd : (s1.map VersionRow.version_id).Nodup)
    (hcl : ∀ r ∈ s1, r.version_id ≠ vid → sqlTruthyJs r.is_current = false) :
    versionCurrentCount (versionApplyTo now vid pairs s1) ≤ 1 := by
  unfold versionApplyTo
  exact vcount_le_one_target vid _ id s1 hnd hcl

lemma versionApplyTo_count_mono (now : Nat) (vid : String)
    (pairs : List (String × SqlVal)) (s : List VersionRow)
    (hfal : ∀ kv ∈ pairs, kv.1 = "is_current" → sqlTruthyJs kv.2 = false) :
    versionCurrentCount (versionApplyTo now vid pairs s) ≤ versionCurrentCount s := by
  unfold versionApplyTo
  apply vcount_map_mono
  intro r _ htr
  by_cases h : (r.version_id == vid) = true
  · simp only [h, if_true] at htr
    exact foldl_applyVSet_is_current_mono pairs r hfal htr
  · rw [Bool.not_eq_true] at h
    simp only [h, Bool.false_eq_true, if_false] at htr
    exact htr

lemma versionUpdate_inv (now : Nat) (vid : String) (u : List (String × Json))
    (s : List VersionRow) (hWF : (u.map Prod.fst).Nodup) (hInv : versionInv s) :
    versionInv (versionUpdate now s vid u).2 := by
  obtain ⟨hnd, hcnt⟩ := hInv
  cases htr : (match u.lookup "is_current" with | some v => jsTruthy v | none => false) with
  | true =>
    have hnd1 : ((versionClearOthers now vid s).map VersionRow.version_id).Nodup := by
      rw [versionClearOthers_ids]; exact hnd
    have hc1 : versionCurrentCount (versionClearOthers now vid s) ≤ 1 :=
      versionClearOthers_count now vid s hnd
    have hs1 : versionInv (versionClearOthers now vid s) := ⟨hnd1, hc1⟩
    have happly : ∀ pairs, versionInv (versionApplyTo now vid pairs (versionClearOthers now vid s)) := by
      intro pairs
      refine ⟨by rw [versionApplyTo_ids]; exact hnd1, ?_⟩
      exact versionApplyTo_count_le_one now vid pairs _ hnd1
        (fun r hr hne => versionClearOthers_mem now vid s r hr hne)
    simp only [versionUpdate, htr, if_true]
    split
    · exact hs1
    · split
      · split
        · exact hs1
        · split
          · exact hs1
          · exact happly _
      · exact hs1
  | false =>
    have happly : ∀ pairs, bindAll versionProcess (versionFieldsOf u) = some pairs →
        versionInv (versionApplyTo now vid pairs s) := by
      intro pairs hb
      refine ⟨by rw [versionApplyTo_ids]; exact hnd, ?_⟩
      have hfal : ∀ kv ∈ pairs, kv.1 = "is_current" → sqlTruthyJs kv.2 = false := by
        intro kv hkv hk
        obtain ⟨jv, hmem, hbind⟩ := bindAll_mem versionProcess _ pairs hb kv hkv
        have hmu : (kv.1, jv) ∈ u := (List.mem_filter.mp hmem).1
        have hlk : u.lookup "is_current" = some jv := by
          rw [← hk]
          exact lookup_of_mem_nodup u kv.1 jv hWF hmu
        rw [hlk] at htr
        have hproc : versionProcess kv.1 jv = jv := by rw [hk]; rfl
        rw [hproc] at hbind
        exact bind_falsy jv kv.2 hbind htr
      exact Nat.le_trans (versionApplyTo_count_mono now vid pairs s hfal) hcnt
    simp only [versionUpdate, htr, Bool.false_eq_true, if_false]
    split
    · exact ⟨hnd, hcnt⟩
    · split
      · split
        · exact ⟨hnd, hcnt⟩
        · split
          · exact ⟨hnd, hcnt⟩
          · rename_i pairs heq _
            exact happly pairs heq
      · exact ⟨hnd, hcnt⟩

lemma versionSetCurrent_inv (now : Nat) (vid : String) (s : List VersionRow)
    (hInv : versionInv s) : versionInv (versionSetCurrent now s vid).2 := by
  obtain ⟨hnd, _⟩ := hInv
  have hnd1 : ((versionClearAll now s).map VersionRow.version_id).Nodup := by
    rw [versionClearAll_ids]; exact hnd
  have hs1 : versionInv (versionClearAll now s) :=
    ⟨hnd1, by rw [versionClearAll_count]; exact Nat.zero_le 1⟩
  simp only [versionSetCurrent]
  split
  · exact hs1
  · refine ⟨?_, ?_⟩
    · rw [ids_map_eq]
      · exact hnd1
      · intro r
        by_cases h : (r.version_id == vid) = true <;> simp [h]
    · apply vcount_le_one_target vid _ id _ hnd1
      intro r hr _
      exact versionClearAll_mem now s r hr

lemma versionCreate_inv (now : Nat) (today : String) (b : VersionCreateBody)
    (s : List VersionRow) (hInv : versionInv s) :
    versionInv (versionCreate now today s b).2 := by
  obtain ⟨hnd, hcnt⟩ := hInv
  cases htr : jsTruthy b.is_current with
  | true =>
    have hnd1 : ((versionClearAll now s).map VersionRow.version_id).Nodup := by
      rw [versionClearAll_ids]; exact hnd
    have hc1 : versionCurrentCount (versionClearAll now s) = 0 := versionClearAll_count now s
    have hs1 : versionInv (versionClearAll now s) := ⟨hnd1, by omega⟩
    simp only [versionCreate, htr, if_true]
    split
    · split
      · exact hs1
      · rename_i hany
        refine ⟨?_, ?_⟩
        · rw [List.map_append, List.map_singleton]
          rw [List.nodup_append]
          refine ⟨by rw [versionClearAll_ids]; exact hnd, List.nodup_singleton _, ?_⟩
          intro a ha hb
          rw [List.mem_singleton] at hb
          subst hb
          obtain ⟨x, hx, hxe⟩ := List.mem_map.mp ha
          apply hany
          refine List.any_eq_true.mpr ⟨x, hx, ?_⟩
          rw [hxe]
          exact beq_self_eq_true _
        · rw [vcount_append, hc1, vcount_cons]
          have h0 : versionCurrentCount ([] : List VersionRow) = 0 := rfl
          rw [h0]
          exact Nat.le_refl 1
    · exact hs1
  | false =>
    simp only [versionCreate, htr, Bool.false_eq_true, if_false]
    split
    · split
      · exact ⟨hnd, hcnt⟩
      · refine ⟨?_, ?_⟩
        · rw [List.map_append, List.map_singleton]
          rw [List.nodup_append]
          refine ⟨hnd, List.nodup_singleton _, ?_⟩
          intro a ha hb
          rw [List.mem_singleton] at hb
          subst hb
          obtain ⟨x, hx, hxe⟩ := List.mem_map.mp ha
          rename_i hany
          apply hany
          refine List.any_eq_true.mpr ⟨x, hx, ?_⟩
          rw [hxe]
          exact beq_self_eq_true _
        · rw [vcount_append, vcount_cons]
          have h0 : versionCurrentCount ([] : List VersionRow) = 0 := rfl
          rw [h0]
          have h1 : sqlTruthyJs (SqlVal.i 0) = false := rfl
          rw [h1]
          simpa using hcnt
    · exact ⟨hnd, hcnt⟩

lemma vstep_inv (s : List VersionRow) (op : VOp) (hWF : vopWF op)
    (hInv : versionInv s) : versionInv (vstep s op) := by
  cases op with
  | create now today b => exact versionCreate_inv now today b s hInv
  | update now vid u => exact versionUpdate_inv now vid u s hWF hInv
  | setCur now vid => exact versionSetCurrent_inv now vid s hInv

/-- C2: starting from a well-formed store with at most one current
Version, any sequence of version create / update / set-current operations
keeps at most one Version current; moreover every operation that sets a
Version's `is_current` (an update with truthy `is_current`, a set-current,
a create with truthy `is_current`) leaves every OTHER version's flag
unset. -/
theorem version_current_invariant :
    (∀ (ops : List VOp) (s : List VersionRow), versionInv s →
      (∀ op ∈ ops, vopWF op) → versionInv (ops.foldl vstep s)) ∧
    (∀ (now : Nat) (s : List VersionRow) (vid : String) (u : List (String × Json)),
      (match u.lookup "is_current" with | some v => jsTruthy v | none => false) = true →
      ∀ r ∈ (versionUpdate now s vid u).2, r.version_id ≠ vid →
        sqlTruthyJs r.is_current = false) ∧
    (∀ (now : Nat) (s : List VersionRow) (vid : String),
      ∀ r ∈ (versionSetCurrent now s vid).2, r.version_id ≠ vid →
        sqlTruthyJs r.is_current = false) ∧
    (∀ (now : Nat) (today : String) (s : List VersionRow) (b : VersionCreateBody),
      jsTruthy b.is_current = true →
      ∀ r ∈ (versionCreate now today s b).2,
        r.version_id ≠
          "VER_" ++ String.mk (b.version_number.data.map (fun c => if c == '.' then '_' else c)) →
        sqlTruthyJs r.is_current = false) := by
  refine ⟨?_, ?_, ?_, ?_⟩
  · intro ops
    induction ops with
    | nil => intro s hInv _; exact hInv
    | cons op rest ih =>
      intro s hInv hWF
      rw [List.foldl_cons]
      exact ih (vstep s op) (vstep_inv s op (hWF op (List.mem_cons_self op rest)) hInv)
        (fun x hx => hWF x (List.mem_cons_of_mem op hx))
  · intro now s vid u htr r hr hne
    have hmem : ∀ r ∈ versionClearOthers now vid s, r.version_id ≠ vid →
        sqlTruthyJs r.is_current = false :=
      fun r hr hne => versionClearOthers_mem now vid s r hr hne
    have happ : ∀ pairs, ∀ r ∈ versionApplyTo now vid pairs (versionClearOthers now vid s),
        r.version_id ≠ vid → sqlTruthyJs r.is_current = false := by
      intro pairs r hr hne
      unfold versionApplyTo at hr
      obtain ⟨x, hx, hxe⟩ := List.mem_map.mp hr
      by_cases h : (x.version_id == vid) = true
      · rw [if_pos h] at hxe
        have : r.version_id = x.version_id := by
          rw [← hxe]
          exact foldl_applyVSet_version_id pairs x
        rw [this] at hne
        exact absurd (eq_of_beq h) hne
      · rw [Bool.not_eq_true] at h
        rw [if_neg (by simp [h])] at hxe
        rw [← hxe]
        exact hmem x hx (by simpa using h)
    revert hr
    simp only [versionUpdate, htr, if_true]
    split
    · intro hr; exact hmem r hr hne
    · split
      · split
        · intro hr; exact hmem r hr hne
        · split
          · intro hr; exact hmem r hr hne
          · intro hr; exact happ _ r hr hne
      · intro hr; exact hmem r hr hne
  · intro now s vid r hr hne
    have hmem : ∀ r ∈ versionClearAll now s, sqlTruthyJs r.is_current = false :=
      fun r hr => versionClearAll_mem now s r hr
    revert hr
    simp only [versionSetCurrent]
    split
    · intro hr; exact hmem r hr
    · intro hr
      obtain ⟨x, hx, hxe⟩ := List.mem_map.mp hr
      by_cases h : (x.version_id == vid) = true
      · rw [if_pos h] at hxe
        have : r.version_id = x.version_id := by rw [← hxe]
        rw [this] at hne
        exact absurd (eq_of_beq h) hne
      · rw [Bool.not_eq_true] at h
        rw [if_neg (by simp [h])] at hxe
        rw [← hxe]
        exact hmem x hx
  · intro now today s b htr r hr hne
    have hmem : ∀ r ∈ versionClearAll now s, sqlTruthyJs r.is_current = false :=
      fun r hr => versionClearAll_mem now s r hr
    revert hr
    simp only [versionCreate, htr, if_true]
    split
    · split
      · intro hr; exact hmem r hr
      · intro hr
        rcases List.mem_append.mp hr with hr | hr
        · exact hmem r hr
        · rw [List.mem_singleton] at hr
          subst hr
          exact absurd rfl hne
    · intro hr; exact hmem r hr

/-- C2 — witness: a concrete run of `version_current_invariant` on a
one-row store and a three-operation sequence, and the other-flags-cleared
conjunct at a concrete update. -/
theorem version_current_invariant_witness :
    sqlTruthyJs
      ({ soleVersion with
          is_current := SqlVal.i 0
          updated_at := SqlVal.i 5 } : VersionRow).is_current = false ∧
    versionInv
      ([VOp.setCur 1 "VER_1",
        VOp.update 2 "VER_1" [("is_current", Json.bool true)],
        VOp.create 3 "2024-01-01" { version_number := "2.0", is_current := Json.bool true }].foldl
        vstep
        [{ version_id := "VER_1", version_number := SqlVal.s "1.0",
           version_name := SqlVal.s "one", description := SqlVal.null,
           release_date := SqlVal.null, status := SqlVal.s "active",
           is_current := SqlVal.i 1, features := SqlVal.s "[]",
           bug_fixes := SqlVal.s "[]", known_issues := SqlVal.s "[]",
           created_by := SqlVal.s "x", created_at := SqlVal.i 0,
           updated_at := SqlVal.i 0 }]) :=
  ⟨version_current_invariant.2.1 5 [soleVersion] "VER_X" [("is_current", Json.bool true)] rfl
    { soleVersion with is_current := SqlVal.i 0, updated_at := SqlVal.i 5 }
    (List.mem_singleton.mpr rfl) (by decide),
  version_current_invariant.1 _ _
    ⟨by decide, by decide⟩
    (by
      intro op hop
      rcases List.mem_cons.mp hop with h | hop
      · subst h; trivial
      rcases List.mem_cons.mp hop with h | hop
      · subst h; exact List.nodup_singleton _
      rcases List.mem_cons.mp hop with h | hop
      · subst h; trivial
      · exact absurd hop (List.not_mem_nil op))⟩

lemma length_filterMap_all_some (f : α → Option β) :
    ∀ l : List α, (∀ x ∈ l, (f x).isSome) → (l.filterMap f).length = l.length := by
  intro l
  induction l with
  | nil => intro _; rfl
  | cons x t ih =>
    intro h
    rw [List.filterMap_cons]
    cases hf : f x with
    | none =>
      have := h x (List.mem_cons_self x t)
      rw [hf] at this
      exact absurd this (by simp)
    | some b => simp [ih (fun y hy => h y (List.mem_cons_of_mem x hy))]

lemma bugLoop_hist (bid : String) (cbid cbname : Option Json) (cur : BugRow) :
    ∀ l : List (String × Json),
      (bugLoop bid cbid cbname cur l).2 =
        (l.filter (fun kv => bugKeyKept kv.1 && bugChanged cur kv.1 kv.2)).filterMap
          (fun kv => mkBugHist bid cbid cbname cur kv.1 kv.2) := by
  intro l
  induction l with
  | nil => rfl
  | cons kv rest ih =>
    obtain ⟨k, v⟩ := kv
    by_cases hk : bugKeyKept k = true
    · by_cases hc : bugChanged cur k v = true
      · simp only [bugLoop, hk, if_true, hc, ih, List.filter_cons, Bool.and_self,
          List.filterMap_cons]
        cases hmk : mkBugHist bid cbid cbname cur k v <;> simp [hmk]
      · rw [Bool.not_eq_true] at hc
        simp [bugLoop, hk, hc, ih, List.filter_cons]
    · rw [Bool.not_eq_true] at hk
      simp [bugLoop, hk, ih, List.filter_cons]

lemma featureLoop_hist (fid : String) (cbn : Json) (cur : FeatureRow) :
    ∀ l : List (String × Json),
      (featureLoop fid cbn cur l).2 =
        (l.filter (fun kv => featureAllowedFields.contains kv.1 && featureChanged cur kv.1 kv.2)).filterMap
          (fun kv => mkFeatHist fid cbn cur kv.1 kv.2) := by
  intro l
  induction l with
  | nil => rfl
  | cons kv rest ih =>
    obtain ⟨k, v⟩ := kv
    by_cases hk : k ∈ featureAllowedFields
    · by_cases hc : featureChanged cur k v = true
      · cases hmk : mkFeatHist fid cbn cur k v <;>
          simp [featureLoop, hk, hc, ih, List.filter_cons, List.filterMap_cons, hmk]
      · simp [featureLoop, hk, hc, ih, List.filter_cons]
    · simp [featureLoop, hk, ih, List.filter_cons]

lemma updateBug_hist (now : Nat) (s : List BugRow) (bid : String)
    (updates : List (String × Json)) (cur : BugRow)
    (hfind : s.find? (fun r => r.bug_id == bid) = some cur) :
    (updateBug now s bid updates).2.2 =
      (bugLoop bid (updates.lookup "changed_by_id") (updates.lookup "changed_by_name") cur
        (updates.filter (fun kv =>
          !(kv.1 == "changed_by_id") && !(kv.1 == "changed_by_name")))).2 := by
  simp only [updateBug, hfind]
  split
  · rfl
  · split
    · split
      · rfl
      · split
        · rfl
        · rfl
    · rfl

lemma featureUpdate_hist (now : Nat) (s : List FeatureRow) (fid : String)
    (updates : List (String × Json)) (cur : FeatureRow)
    (hfind : s.find? (fun r => r.feature_id == fid) = some cur) :
    (featureUpdate now s fid updates).2.2 =
      (featureLoop fid (jsOr ((updates.lookup "changed_by_name").getD Json.null) (Json.str "Unknown"))
        cur (updates.filter (fun kv => !(kv.1 == "changed_by_name")))).2 := by
  simp only [featureUpdate, hfind]
  split
  · rfl
  · split
    · rfl
    · split
      · rfl
      · rfl

lemma mkBugHist_isSome (bid : String) (cbid cbname : Option Json) (cur : BugRow)
    (k : String) (v : Json) (h1 : (bindJs (bugProcess k v)).isSome)
    (h2 : (bindU cbid).isSome) (h3 : (bindU cbname).isSome) :
    (mkBugHist bid cbid cbname cur k v).isSome := by
  obtain ⟨a, ha⟩ := Option.isSome_iff_exists.mp h1
  obtain ⟨b, hb⟩ := Option.isSome_iff_exists.mp h2
  obtain ⟨c, hc⟩ := Option.isSome_iff_exists.mp h3
  simp [mkBugHist, ha, hb, hc]

/-- C3 — counterexample.  A Feature update that resubmits the `tags` array
`["a"]` whose JSON encoding equals the stored string `'["a"]'` still
appends one history row (the handler compares the RAW value against the
stored string), and the row's action is `'Field Updated'`, not
`'Updated'` — the claim demands zero rows for such a submission. -/
theorem feature_history_equal_array_refutes :
    stringify (Json.arr [Json.str "a"]) = "[\"a\"]" ∧
    sampleFeature.tags = SqlVal.s "[\"a\"]" ∧
    (featureUpdate 3 [sampleFeature] "F1" [("tags", Json.arr [Json.str "a"])]).2.2.map
        (fun h => (h.action, h.field_name)) = [("Field Updated", SqlVal.s "tags")] ∧
    (featureUpdate 3 [sampleFeature] "F1" [("tags", Json.arr [Json.str "a"])]).2.2.length = 1 ∧
    "Field Updated" ≠ "Updated" :=
  ⟨rfl, rfl, rfl, rfl, by decide⟩

/-- C3 (amended): a Bug partial update appends exactly one `'Updated'`
history row per submitted updatable field whose preprocessed value is
strictly unequal to the stored one — for the JSON-encoded columns the
comparison is by serialized string, so a resubmitted equal array appends
nothing — and zero rows for unchanged fields; the update of `sampleBug`
changing three of five submitted fields appends exactly three rows.  A
Feature update, by contrast, appends one `'Field Updated'` row per
allow-listed field whose RAW value differs from the stored one, so a
submitted array or object always appends a row. -/
theorem update_history_per_field :
    (∀ (now : Nat) (s : List BugRow) (bid : String) (updates : List (String × Json))
        (cur : BugRow),
      s.find? (fun r => r.bug_id == bid) = some cur →
      (updateBug now s bid updates).2.2 =
        ((updates.filter (fun kv =>
            !(kv.1 == "changed_by_id") && !(kv.1 == "changed_by_name"))).filter
          (fun kv => bugKeyKept kv.1 && bugChanged cur kv.1 kv.2)).filterMap
          (fun kv => mkBugHist bid (updates.lookup "changed_by_id")
            (updates.lookup "changed_by_name") cur kv.1 kv.2)) ∧
    (∀ (now : Nat) (s : List BugRow) (bid : String) (updates : List (String × Json))
        (cur : BugRow),
      s.find? (fun r => r.bug_id == bid) = some cur →
      (∀ kv ∈ updates, (bindJs (bugProcess kv.1 kv.2)).isSome) →
      (bindU (updates.lookup "changed_by_id")).isSome →
      (bindU (updates.lookup "changed_by_name")).isSome →
      (updateBug now s bid updates).2.2.length =
        ((updates.filter (fun kv =>
            !(kv.1 == "changed_by_id") && !(kv.1 == "changed_by_name"))).filter
          (fun kv => bugKeyKept kv.1 && bugChanged cur kv.1 kv.2)).length) ∧
    (∀ (now : Nat) (s : List FeatureRow) (fid : String) (updates : List (String × Json))
        (cur : FeatureRow),
      s.find? (fun r => r.feature_id == fid) = some cur →
      (featureUpdate now s fid updates).2.2 =
        ((updates.filter (fun kv => !(kv.1 == "changed_by_name"))).filter
          (fun kv => featureAllowedFields.contains kv.1 && featureChanged cur kv.1 kv.2)).filterMap
          (fun kv => mkFeatHist fid
            (jsOr ((updates.lookup "changed_by_name").getD Json.null) (Json.str "Unknown"))
            cur kv.1 kv.2)) ∧
    (∀ (cur : FeatureRow) (k : String) (xs : List Json),
      featureChanged cur k (Json.arr xs) = true) ∧
    (updateBug 4 [sampleBug] "BUG-2"
      [("title", Json.str "new"), ("description", Json.str "d"),
       ("priority", Json.str "P1"), ("status", Json.str "Assigned"),
       ("tags", Json.arr [Json.str "x"])]).2.2.length = 3 := by
  refine ⟨?_, ?_, ?_, ?_, rfl⟩
  · intro now s bid updates cur hfind
    rw [updateBug_hist now s bid updates cur hfind, bugLoop_hist]
  · intro now s bid updates cur hfind hvals hcb1 hcb2
    rw [updateBug_hist now s bid updates cur hfind, bugLoop_hist]
    apply length_filterMap_all_some
    intro kv hkv
    have hmem : kv ∈ updates := (List.mem_filter.mp (List.mem_filter.mp hkv).1).1
    exact mkBugHist_isSome bid _ _ cur kv.1 kv.2 (hvals kv hmem) hcb1 hcb2
  · intro now s fid updates cur hfind
    rw [featureUpdate_hist now s fid updates cur hfind, featureLoop_hist]
  · intro cur k xs
    unfold featureChanged
    cases hcol : getFeatureCol cur k with
    | none => rfl
    | some sv => cases sv <;> rfl

/-- C3 — witness: the three hypothesis-guarded conjuncts of
`update_history_per_field` applied to concrete stores and payloads. -/
theorem update_history_per_field_witness :
    (updateBug 4 [sampleBug] "BUG-2" [("title", Json.str "new")]).2.2 =
      [{ bug_id := "BUG-2", action := "Updated", field_name := SqlVal.s "title",
         old_value := SqlVal.s "old", new_value := SqlVal.s "new",
         changed_by_id := SqlVal.null, changed_by_name := SqlVal.null }] ∧
    (updateBug 4 [sampleBug] "BUG-2" [("title", Json.str "new")]).2.2.length = 1 ∧
    (featureUpdate 3 [sampleFeature] "F1" [("title", Json.str "t")]).2.2 = [] :=
  ⟨(update_history_per_field.1 4 [sampleBug] "BUG-2" [("title", Json.str "new")]
      sampleBug rfl).trans rfl,
   ((update_history_per_field.2.1 4 [sampleBug] "BUG-2" [("title", Json.str "new")]
      sampleBug rfl
      (fun kv hkv => by
        rw [List.mem_singleton] at hkv
        subst hkv
        rfl)
      rfl rfl).trans rfl),
   (update_history_per_field.2.2.1 3 [sampleFeature] "F1" [("title", Json.str "t")]
      sampleFeature rfl).trans rfl⟩

lemma mem_insertLe (le : α → α → Bool) (x y : α) :
    ∀ l : List α, x ∈ insertLe le y l ↔ x = y ∨ x ∈ l := by
  intro l
  induction l with
  | nil => simp [insertLe]
  | cons z t ih =>
    simp only [insertLe]
    split
    · simp [List.mem_cons]
    · simp only [List.mem_cons, ih]
      tauto

lemma mem_sortByLe (le : α → α → Bool) (x : α) :
    ∀ l : List α, x ∈ sortByLe le l ↔ x ∈ l := by
  intro l
  induction l with
  | nil => simp [sortByLe]
  | cons z t ih =>
    simp only [sortByLe, mem_insertLe, List.mem_cons, ih]

lemma length_insertLe (le : α → α → Bool) (y : α) :
    ∀ l : List α, (insertLe le y l).length = l.length + 1 := by
  intro l
  induction l with
  | nil => rfl
  | cons z t ih =>
    simp only [insertLe]
    split
    · rfl
    · simp [ih]

lemma length_sortByLe (le : α → α → Bool) :
    ∀ l : List α, (sortByLe le l).length = l.length := by
  intro l
  induction l with
  | nil => rfl
  | cons z t ih => simp [sortByLe, length_insertLe, ih]

lemma bugQueryPred_default (r : BugRow) : bugQueryPred {} r = true := rfl

lemma listBugs_default_eq (s : List BugRow) (hlen : s.length ≤ 100) :
    listBugs {} s = sortByLe (fun a b => sqlLe b.created_at a.created_at) s := by
  show applyLimit (some 100) (applyOffset (some 0)
    (sortByLe (fun a b => sqlLe b.created_at a.created_at)
      (s.filter (bugQueryPred {})))) = _
  rw [List.filter_eq_self.mpr (fun a _ => bugQueryPred_default a)]
  simp only [applyOffset, Int.toNat_zero, List.drop_zero, applyLimit]
  rw [if_neg (by decide)]
  exact List.take_of_length_le (by rw [length_sortByLe]; simpa using hlen)

lemma mem_applyLimit (o : Option Int) (l : List α) (x : α) (h : x ∈ applyLimit o l) :
    x ∈ l := by
  cases o with
  | none => exact h
  | some n =>
    simp only [applyLimit] at h
    by_cases hn : n < 0
    · rw [if_pos hn] at h; exact h
    · rw [if_neg hn] at h; exact List.mem_of_mem_take h

lemma mem_applyOffset (o : Option Int) (l : List α) (x : α) (h : x ∈ applyOffset o l) :
    x ∈ l := by
  cases o with
  | none => exact h
  | some n =>
    simp only [applyOffset] at h
    exact List.mem_of_mem_drop h

lemma listBugs_subset (q : BugListQuery) (s : List BugRow) (r : BugRow)
    (hr : r ∈ listBugs q s) : r ∈ s.filter (bugQueryPred q) := by
  exact (mem_sortByLe _ r _).mp (mem_applyOffset _ _ _ (mem_applyLimit _ _ _ hr))

lemma bugDeleteRow_bug_id (now : Nat) (bid : String) (r : BugRow) :
    (bugDeleteRow now bid r).bug_id = r.bug_id := by
  unfold bugDeleteRow
  split <;> rfl

lemma deleteBug_success (now : Nat) (s : List BugRow) (bid : String)
    (dbi dbn : Option Json) (r0 : BugRow) (hmem : r0 ∈ s) (hid : r0.bug_id = bid)
    (hchk : (s.map (bugDeleteRow now bid)).all bugChecksOk = true) :
    (deleteBug now s bid dbi dbn).1 = HResp.ok ∧
      (deleteBug now s bid dbi dbn).2.1 = s.map (bugDeleteRow now bid) := by
  have hf : r0 ∈ s.filter (fun r => r.bug_id == bid) :=
    List.mem_filter.mpr ⟨hmem, by rw [hid]; exact beq_self_eq_true _⟩
  have hne : (s.filter (fun r => r.bug_id == bid)).length ≠ 0 := by
    intro h0
    rw [List.length_eq_zero] at h0
    rw [h0] at hf
    exact List.not_mem_nil r0 hf
  unfold deleteBug
  rw [if_neg hne, if_pos hchk]
  exact ⟨rfl, rfl⟩

/-- C4 — counterexample.  Soft-deleting the only stored bug keeps the row
(fetch-by-id still finds it) but the DEFAULT listing — no `show_deleted`
parameter — applies no `is_deleted` filter and still returns the deleted
bug, where the claim demands its exclusion. -/
theorem bug_default_listing_refutes :
    (deleteBug 7 [deletableBug] "BUG-1" none none).1 = HResp.ok ∧
    (getBugRow (deleteBug 7 [deletableBug] "BUG-1" none none).2.1 "BUG-1").isSome = true ∧
    (listBugs {} (deleteBug 7 [deletableBug] "BUG-1" none none).2.1).map BugRow.bug_id =
      ["BUG-1"] ∧
    (listBugs {} (deleteBug 7 [deletableBug] "BUG-1" none none).2.1).map BugRow.is_deleted =
      [SqlVal.i 1] :=
  ⟨rfl, rfl, rfl, rfl⟩

/-- C4 (amended): deleting an existing Bug sets `is_deleted = 1` without
removing the row; a subsequent fetch-by-id still returns it; the DEFAULT
listing (no `show_deleted` supplied) applies no deletion filter and still
includes it; the listing excludes it only when `show_deleted='false'` is
supplied. -/
theorem bug_soft_delete_visibility (now : Nat) (s : List BugRow) (bid : String)
    (dbi dbn : Option Json) (r0 : BugRow) (hmem : r0 ∈ s) (hid : r0.bug_id = bid)
    (hchk : (s.map (bugDeleteRow now bid)).all bugChecksOk = true)
    (hlen : s.length ≤ 100) :
    (deleteBug now s bid dbi dbn).1 = HResp.ok ∧
    (deleteBug now s bid dbi dbn).2.1 = s.map (bugDeleteRow now bid) ∧
    (getBugRow (deleteBug now s bid dbi dbn).2.1 bid).isSome = true ∧
    (∀ r ∈ (deleteBug now s bid dbi dbn).2.1,
      r ∈ listBugs {} (deleteBug now s bid dbi dbn).2.1) ∧
    (∀ r ∈ (deleteBug now s bid dbi dbn).2.1, r.bug_id = bid →
      r ∉ listBugs { show_deleted := some "false" } (deleteBug now s bid dbi dbn).2.1) := by
  obtain ⟨hresp, hstore⟩ := deleteBug_success now s bid dbi dbn r0 hmem hid hchk
  refine ⟨hresp, hstore, ?_, ?_, ?_⟩
  · rw [hstore]
    unfold getBugRow
    rw [List.find?_isSome]
    refine ⟨bugDeleteRow now bid r0, List.mem_map_of_mem _ hmem, ?_⟩
    rw [bugDeleteRow_bug_id, hid]
    exact beq_self_eq_true _
  · intro r hr
    rw [hstore] at hr ⊢
    rw [listBugs_default_eq _ (by rw [List.length_map]; exact hlen)]
    exact (mem_sortByLe _ r _).mpr hr
  · intro r hr hrid hlist
    have hdel : r.is_deleted = SqlVal.i 1 := by
      rw [hstore] at hr
      obtain ⟨x, hx, hxe⟩ := List.mem_map.mp hr
      by_cases h : (x.bug_id == bid) = true
      · rw [← hxe]
        unfold bugDeleteRow
        rw [if_pos h]
      · rw [← hxe] at hrid
        rw [bugDeleteRow_bug_id] at hrid
        exact absurd (by rw [hrid]; exact beq_self_eq_true _) h
    have hfil := listBugs_subset _ _ r hlist
    have hpred := (List.mem_filter.mp hfil).2
    simp +decide [bugQueryPred, hdel] at hpred

/-- C4 — witness: `bug_soft_delete_visibility` on the one-bug store. -/
theorem bug_soft_delete_visibility_witness :
    (deleteBug 7 [deletableBug] "BUG-1" none none).2.1 =
      [deletableBug].map (bugDeleteRow 7 "BUG-1") :=
  (bug_soft_delete_visibility 7 [deletableBug] "BUG-1" none none deletableBug
    (List.mem_singleton.mpr rfl) rfl rfl (by decide)).2.1

/-- C10: soft-deleting an existing bug responds OK and rewrites the table
row-by-row: rows with another `bug_id` are returned unchanged, and the
matched row changes exactly `is_deleted` (to 1), `status` (to
`'Rejected'`), `resolution` (to `'Won''t Fix'`) and `updated_at` (to now),
every other column keeping its stored value. -/
theorem bug_delete_frame (now : Nat) (s : List BugRow) (bid : String)
    (dbi dbn : Option Json) (r0 : BugRow) (hmem : r0 ∈ s) (hid : r0.bug_id = bid)
    (hchk : (s.map (bugDeleteRow now bid)).all bugChecksOk = true) :
    (deleteBug now s bid dbi dbn).1 = HResp.ok ∧
    (deleteBug now s bid dbi dbn).2.1 = s.map (bugDeleteRow now bid) ∧
    (∀ r : BugRow, r.bug_id ≠ bid → bugDeleteRow now bid r = r) ∧
    (∀ r : BugRow, r.bug_id = bid →
      (bugDeleteRow now bid r).is_deleted = SqlVal.i 1 ∧
      (bugDeleteRow now bid r).status = SqlVal.s "Rejected" ∧
      (bugDeleteRow now bid r).resolution = SqlVal.s "Won't Fix" ∧
      (bugDeleteRow now bid r).updated_at = SqlVal.i now ∧
      (bugDeleteRow now bid r).bug_id = r.bug_id ∧
      (bugDeleteRow now bid r).title = r.title ∧
      (bugDeleteRow now bid r).description = r.description ∧
      (bugDeleteRow now bid r).steps_to_reproduce = r.steps_to_reproduce ∧
      (bugDeleteRow now bid r).expected_result = r.expected_result ∧
      (bugDeleteRow now bid r).actual_result = r.actual_result ∧
      (bugDeleteRow now bid r).priority = r.priority ∧
      (bugDeleteRow now bid r).severity = r.severity ∧
      (bugDeleteRow now bid r).category = r.category ∧
      (bugDeleteRow now bid r).type = r.type ∧
      (bugDeleteRow now bid r).linked_tests = r.linked_tests ∧
      (bugDeleteRow now bid r).related_bugs = r.related_bugs ∧
      (bugDeleteRow now bid r).parent_bug_id = r.parent_bug_id ∧
      (bugDeleteRow now bid r).module_id = r.module_id ∧
      (bugDeleteRow now bid r).session_id = r.session_id ∧
      (bugDeleteRow now bid r).reporter_id = r.reporter_id ∧
      (bugDeleteRow now bid r).reporter_name = r.reporter_name ∧
      (bugDeleteRow now bid r).reporter_email = r.reporter_email ∧
      (bugDeleteRow now bid r).assignee_id = r.assignee_id ∧
      (bugDeleteRow now bid r).assignee_name = r.assignee_name ∧
      (bugDeleteRow now bid r).assignee_email = r.assignee_email ∧
      (bugDeleteRow now bid r).verifier_id = r.verifier_id ∧
      (bugDeleteRow now bid r).verifier_name = r.verifier_name ∧
      (bugDeleteRow now bid r).verifier_email = r.verifier_email ∧
      (bugDeleteRow now bid r).environment = r.environment ∧
      (bugDeleteRow now bid r).found_in_version = r.found_in_version ∧
      (bugDeleteRow now bid r).fixed_in_version = r.fixed_in_version ∧
      (bugDeleteRow now bid r).target_release = r.target_release ∧
      (bugDeleteRow now bid r).created_at = r.created_at ∧
      (bugDeleteRow now bid r).resolved_at = r.resolved_at ∧
      (bugDeleteRow now bid r).verified_at = r.verified_at ∧
      (bugDeleteRow now bid r).attachments = r.attachments ∧
      (bugDeleteRow now bid r).tags = r.tags) := by
  obtain ⟨hresp, hstore⟩ := deleteBug_success now s bid dbi dbn r0 hmem hid hchk
  refine ⟨hresp, hstore, ?_, ?_⟩
  · intro r hr
    unfold bugDeleteRow
    rw [if_neg (by rw [beq_eq_false_iff_ne.mpr hr]; exact Bool.false_ne_true)]
  · intro r hr
    have hb : (r.bug_id == bid) = true := by rw [hr]; exact beq_self_eq_true _
    unfold bugDeleteRow
    rw [if_pos hb]
    simp

/-- C10 — witness: `bug_delete_frame` on the one-bug store. -/
theorem bug_delete_frame_witness :
    (deleteBug 7 [deletableBug] "BUG-1" none none).1 = HResp.ok ∧
    (deleteBug 7 [deletableBug] "BUG-1" none none).2.1 =
      [deletableBug].map (bugDeleteRow 7 "BUG-1") :=
  ⟨(bug_delete_frame 7 [deletableBug] "BUG-1" none none deletableBug
      (List.mem_singleton.mpr rfl) rfl (by decide)).1,
   (bug_delete_frame 7 [deletableBug] "BUG-1" none none deletableBug
      (List.mem_singleton.mpr rfl) rfl (by decide)).2.1⟩

/-- C5 — counterexample.  Updating a NONEXISTENT version with
`is_current: true` responds 404 but has already cleared the stored
version's `is_current` flag and refreshed its `updated_at`: the store is
not left unchanged. -/
theorem version_notfound_mutation_refutes :
    (versionUpdate 5 [soleVersion] "VER_X" [("is_current", Json.bool true)]).1 =
      HResp.notFound "Version not found" ∧
    (versionUpdate 5 [soleVersion] "VER_X" [("is_current", Json.bool true)]).2 =
      [{ soleVersion with is_current := SqlVal.i 0, updated_at := SqlVal.i 5 }] ∧
    (versionUpdate 5 [soleVersion] "VER_X" [("is_current", Json.bool true)]).2 ≠
      [soleVersion] :=
  ⟨rfl, rfl, by decide⟩

lemma filterVid_len_zero (vid : String) (s : List VersionRow)
    (hne : ∀ r ∈ s, r.version_id ≠ vid) :
    ∀ s1 : List VersionRow, (s1.map VersionRow.version_id = s.map VersionRow.version_id) →
      (s1.filter (fun r => r.version_id == vid)).length = 0 := by
  intro s1 hids
  rw [List.length_eq_zero]
  apply List.filter_eq_nil_iff.mpr
  intro r hr
  have : r.version_id ∈ s.map VersionRow.version_id := by
    rw [← hids]
    exact List.mem_map_of_mem VersionRow.version_id hr
  obtain ⟨x, hx, hxe⟩ := List.mem_map.mp this
  rw [← hxe]
  simp [hne x hx]

/-- C5 (amended): update and delete requests naming an absent id report
not-found with the store unchanged — EXCEPT the Version operations that
pre-clear `is_current` flags: a partial update of a nonexistent Version
with `is_current: true` (and likewise set-current) first unsets every
other Version's flag and refreshes their `updated_at`, and only then
reports not-found, leaving those writes in place. -/
theorem notfound_before_mutation :
    (∀ (now : Nat) (s : List VersionRow) (vid : String),
      (∀ r ∈ s, r.version_id ≠ vid) →
      versionUpdate now s vid [("is_current", Json.bool true)] =
        (HResp.notFound "Version not found", versionClearOthers now vid s) ∧
      versionClearOthers now vid s = versionClearAll now s) ∧
    (∀ (now : Nat) (s : List VersionRow) (vid : String),
      (∀ r ∈ s, r.version_id ≠ vid) →
      versionSetCurrent now s vid =
        (HResp.notFound "Version not found", versionClearAll now s)) ∧
    (∀ (now : Nat) (s : List BugRow) (bid : String) (dbi dbn : Option Json),
      (∀ r ∈ s, r.bug_id ≠ bid) →
      deleteBug now s bid dbi dbn = (HResp.notFound "Bug not found", s, [])) ∧
    (∀ (now : Nat) (s : List UserRow) (uid : String) (nm : String),
      (∀ r ∈ s, r.id ≠ uid) →
      putUser now s uid [("name", Json.str nm)] = (HResp.notFound "User not found", s)) := by
  refine ⟨?_, ?_, ?_, ?_⟩
  · intro now s vid hne
    constructor
    · have hred : versionUpdate now s vid [("is_current", Json.bool true)] =
          (if ((versionClearOthers now vid s).filter
              (fun r => r.version_id == vid)).length = 0
           then (HResp.notFound "Version not found", versionClearOthers now vid s)
           else (HResp.ok, versionApplyTo now vid [("is_current", SqlVal.i 1)]
             (versionClearOthers now vid s))) := rfl
      rw [hred, if_pos (filterVid_len_zero vid s hne _ (versionClearOthers_ids now vid s))]
    · unfold versionClearOthers versionClearAll
      apply List.map_congr_left
      intro r hr
      rw [if_pos (hne r hr)]
  · intro now s vid hne
    have hred : versionSetCurrent now s vid =
        (if ((versionClearAll now s).filter (fun r => r.version_id == vid)).length = 0
         then (HResp.notFound "Version not found", versionClearAll now s)
         else (HResp.ok, (versionClearAll now s).map (fun r =>
           if r.version_id == vid then
             { r with is_current := SqlVal.i 1, updated_at := SqlVal.i now }
           else r))) := rfl
    rw [hred, if_pos (filterVid_len_zero vid s hne _ (versionClearAll_ids now s))]
  · intro now s bid dbi dbn hne
    have hch : (s.filter (fun r => r.bug_id == bid)).length = 0 := by
      rw [List.length_eq_zero]
      apply List.filter_eq_nil_iff.mpr
      intro r hr
      simp [hne r hr]
    unfold deleteBug
    rw [if_pos hch]
  · intro now s uid nm hne
    have hch : (s.filter (fun r => r.id == uid)).length = 0 := by
      rw [List.length_eq_zero]
      apply List.filter_eq_nil_iff.mpr
      intro r hr
      simp [hne r hr]
    have hred : putUser now s uid [("name", Json.str nm)] =
        (if (s.filter (fun r => r.id == uid)).length = 0
         then (HResp.notFound "User not found", s)
         else (HResp.ok, s.map (fun r =>
           if r.id == uid then
             { [(("name" : String), SqlVal.s nm)].foldl
                 (fun acc kv => applyUserSet acc kv.1 kv.2) r with
               updated_at := SqlVal.i now }
           else r))) := rfl
    rw [hred, if_pos hch]

/-- C5 — witness: `notfound_before_mutation` on the one-version store and
on empty bug/user stores. -/
theorem notfound_before_mutation_witness :
    versionUpdate 5 [soleVersion] "VER_X" [("is_current", Json.bool true)] =
      (HResp.notFound "Version not found", versionClearOthers 5 "VER_X" [soleVersion]) ∧
    versionSetCurrent 5 [soleVersion] "VER_X" =
      (HResp.notFound "Version not found", versionClearAll 5 [soleVersion]) ∧
    deleteBug 0 [] "BUG-9" none none = (HResp.notFound "Bug not found", [], []) ∧
    putUser 0 [] "u-9" [("name", Json.str "n")] = (HResp.notFound "User not found", []) :=
  ⟨((notfound_before_mutation.1 5 [soleVersion] "VER_X"
      (fun r hr => by
        rw [List.mem_singleton] at hr
        subst hr
        decide)).1),
   notfound_before_mutation.2.1 5 [soleVersion] "VER_X"
      (fun r hr => by
        rw [List.mem_singleton] at hr
        subst hr
        decide),
   notfound_before_mutation.2.2.1 0 [] "BUG-9" none none (fun r hr => absurd hr (List.not_mem_nil r)),
   notfound_before_mutation.2.2.2 0 [] "u-9" "n" (fun r hr => absurd hr (List.not_mem_nil r))⟩

/-- C6 — counterexample.  The TypeScript router deletes (deactivates) the
sole remaining admin WITHOUT any last-admin rejection: the request
succeeds and the row's `is_active` flag is changed. -/
theorem ts_last_admin_delete_refutes :
    (tsDeleteUser [tsSoleAdmin] "1").1 = HResp.ok ∧
    (tsDeleteUser [tsSoleAdmin] "1").2 = [{ tsSoleAdmin with is_active := SqlVal.i 0 }] ∧
    ({ tsSoleAdmin with is_active := SqlVal.i 0 } : TsUserRow) ≠ tsSoleAdmin :=
  ⟨rfl, rfl, by decide⟩

/-- C6 (amended): in the legacy `server.js` handler, deleting the sole
remaining admin is rejected — with HTTP 400 Bad Request, not 409 — and
the store is unchanged, while an admin with another admin present is
deleted without that rejection.  The TypeScript router applies no
last-admin rule at all: any matching user, including a sole admin, is
simply deactivated. -/
theorem last_admin_delete_guard :
    (∀ (s : List UserRow) (uid : String) (u : UserRow),
      getUserServer s uid = some u → u.role = SqlVal.s "admin" →
      (s.filter (fun r => sqlEqText r.role "admin" && !(r.id == uid))).length = 0 →
      deleteUserServer s uid = (HResp.badRequest "Cannot delete the last admin user", s)) ∧
    (∀ (s : List UserRow) (uid : String) (u : UserRow),
      getUserServer s uid = some u →
      (s.filter (fun r => sqlEqText r.role "admin" && !(r.id == uid))).length ≠ 0 →
      deleteUserServer s uid = (HResp.ok, s.filter (fun r => !(r.id == uid)))) ∧
    (∀ (s : List TsUserRow) (uid : String) (r0 : TsUserRow),
      r0 ∈ s → tsUserIdMatch r0 uid = true →
      tsDeleteUser s uid =
        (HResp.ok, s.map (fun r =>
          if tsUserIdMatch r uid then { r with is_active := SqlVal.i 0 } else r))) := by
  refine ⟨?_, ?_, ?_⟩
  · intro s uid u hfind hrole h0
    unfold deleteUserServer
    unfold getUserServer at hfind
    rw [hfind]
    have hc : (u.role == SqlVal.s "admin" &&
        (s.filter (fun r => sqlEqText r.role "admin" && !(r.id == uid))).length == 0) = true := by
      rw [Bool.and_eq_true]
      constructor
      · rw [hrole]; exact beq_self_eq_true _
      · rw [h0]; rfl
    simp only [hc, if_true]
  · intro s uid u hfind hne
    unfold deleteUserServer
    unfold getUserServer at hfind
    rw [hfind]
    have h2 : (((s.filter (fun r => sqlEqText r.role "admin" && !(r.id == uid))).length : Nat) == 0) = false :=
      beq_eq_false_iff_ne.mpr hne
    have hc : (u.role == SqlVal.s "admin" &&
        (s.filter (fun r => sqlEqText r.role "admin" && !(r.id == uid))).length == 0) = false := by
      rw [h2, Bool.and_false]
    simp only [hc, Bool.false_eq_true, if_false]
  · intro s uid r0 hmem hmat
    have hf : r0 ∈ s.filter (fun r => tsUserIdMatch r uid) :=
      List.mem_filter.mpr ⟨hmem, hmat⟩
    have hne : (s.filter (fun r => tsUserIdMatch r uid)).length ≠ 0 := by
      intro h0
      rw [List.length_eq_zero] at h0
      rw [h0] at hf
      exact List.not_mem_nil r0 hf
    unfold tsDeleteUser
    rw [if_neg hne]

/-- C6 — witness: `last_admin_delete_guard` on two-user stores: the sole
admin's deletion is rejected with the store intact; with a second admin
present the deletion proceeds. -/
theorem last_admin_delete_guard_witness :
    deleteUserServer [soleAdmin, plainTester] "admin-001" =
      (HResp.badRequest "Cannot delete the last admin user", [soleAdmin, plainTester]) ∧
    deleteUserServer [soleAdmin, otherAdmin] "admin-001" = (HResp.ok, [otherAdmin]) ∧
    (tsDeleteUser [tsSoleAdmin] "1").2 = [{ tsSoleAdmin with is_active := SqlVal.i 0 }] :=
  ⟨last_admin_delete_guard.1 [soleAdmin, plainTester] "admin-001" soleAdmin rfl rfl rfl,
   (last_admin_delete_guard.2.1 [soleAdmin, otherAdmin] "admin-001" soleAdmin rfl
      (by decide)).trans (by rfl),
   congrArg Prod.snd (last_admin_delete_guard.2.2 [tsSoleAdmin] "1" tsSoleAdmin
      (List.mem_singleton.mpr rfl) rfl) |>.trans rfl⟩

/-- C7 — counterexample.  The legacy `server.js` delete REMOVES the user
row from storage (`DELETE FROM users`): deleting a non-admin-protected
tester succeeds, the row is gone, and a subsequent fetch-by-id finds
nothing — the claim demands a soft deactivation with the row still
fetchable. -/
theorem server_user_delete_removes_refutes :
    (deleteUserServer [soleAdmin, plainTester] "tester-001").1 = HResp.ok ∧
    (deleteUserServer [soleAdmin, plainTester] "tester-001").2 = [soleAdmin] ∧
    getUserServer (deleteUserServer [soleAdmin, plainTester] "tester-001").2 "tester-001" =
      none :=
  ⟨rfl, rfl, rfl⟩

/-- C7 (amended): the delete policy is implementation-specific.  The
TypeScript router deactivates (flips `is_active` to 0) without removing
the row, so a subsequent fetch still returns it; the legacy `server.js`
handler REMOVES the row (hard `DELETE`), so a subsequent fetch reports
not-found. -/
theorem user_delete_policy :
    (∀ (s : List TsUserRow) (uid : String) (r0 : TsUserRow),
      r0 ∈ s → tsUserIdMatch r0 uid = true →
      (tsDeleteUser s uid).1 = HResp.ok ∧
      (tsDeleteUser s uid).2 = s.map (fun r =>
        if tsUserIdMatch r uid then { r with is_active := SqlVal.i 0 } else r) ∧
      (tsGetUser (tsDeleteUser s uid).2 uid).isSome = true) ∧
    (∀ (s : List UserRow) (uid : String) (u : UserRow),
      getUserServer s uid = some u →
      (s.filter (fun r => sqlEqText r.role "admin" && !(r.id == uid))).length ≠ 0 →
      (deleteUserServer s uid).1 = HResp.ok ∧
      (deleteUserServer s uid).2 = s.filter (fun r => !(r.id == uid)) ∧
      getUserServer (deleteUserServer s uid).2 uid = none) := by
  constructor
  · intro s uid r0 hmem hmat
    have hf : r0 ∈ s.filter (fun r => tsUserIdMatch r uid) :=
      List.mem_filter.mpr ⟨hmem, hmat⟩
    have hne : (s.filter (fun r => tsUserIdMatch r uid)).length ≠ 0 := by
      intro h0
      rw [List.length_eq_zero] at h0
      rw [h0] at hf
      exact List.not_mem_nil r0 hf
    have hstep : tsDeleteUser s uid =
        (HResp.ok, s.map (fun r =>
          if tsUserIdMatch r uid then { r with is_active := SqlVal.i 0 } else r)) := by
      unfold tsDeleteUser
      rw [if_neg hne]
    refine ⟨by rw [hstep], by rw [hstep], ?_⟩
    rw [hstep]
    unfold tsGetUser
    rw [List.find?_isSome]
    refine ⟨if tsUserIdMatch r0 uid then { r0 with is_active := SqlVal.i 0 } else r0,
      List.mem_map_of_mem _ hmem, ?_⟩
    rw [if_pos hmat]
    have : tsUserIdMatch { r0 with is_active := SqlVal.i 0 } uid = tsUserIdMatch r0 uid := rfl
    rw [this, hmat]
  · intro s uid u hfind hne
    have hstep : deleteUserServer s uid = (HResp.ok, s.filter (fun r => !(r.id == uid))) := by
      unfold deleteUserServer
      unfold getUserServer at hfind
      rw [hfind]
      have h2 : (((s.filter (fun r => sqlEqText r.role "admin" && !(r.id == uid))).length : Nat) == 0) = false :=
        beq_eq_false_iff_ne.mpr hne
      have hc : (u.role == SqlVal.s "admin" &&
          (s.filter (fun r => sqlEqText r.role "admin" && !(r.id == uid))).length == 0) = false := by
        rw [h2, Bool.and_false]
      simp only [hc, Bool.false_eq_true, if_false]
    refine ⟨by rw [hstep], by rw [hstep], ?_⟩
    rw [hstep]
    unfold getUserServer
    rw [List.find?_eq_none]
    intro r hr
    have := (List.mem_filter.mp hr).2
    simp only [Bool.not_eq_true'] at this
    rw [this]
    exact Bool.false_ne_true

/-- C7 — witness: `user_delete_policy` on concrete stores: the TS router
deactivates user id 1 and still fetches it; the legacy server removes the
tester and then fetches nothing. -/
theorem user_delete_policy_witness :
    (tsDeleteUser [tsSoleAdmin] "1").2 = [{ tsSoleAdmin with is_active := SqlVal.i 0 }] ∧
    (tsGetUser (tsDeleteUser [tsSoleAdmin] "1").2 "1").isSome = true ∧
    getUserServer (deleteUserServer [soleAdmin, plainTester] "tester-001").2 "tester-001" =
      none :=
  ⟨((user_delete_policy.1 [tsSoleAdmin] "1" tsSoleAdmin (List.mem_singleton.mpr rfl)
      rfl).2.1).trans rfl,
   (user_delete_policy.1 [tsSoleAdmin] "1" tsSoleAdmin (List.mem_singleton.mpr rfl) rfl).2.2,
   (user_delete_policy.2 [soleAdmin, plainTester] "tester-001" plainTester rfl
      (by decide)).2.2⟩

/-- C8 — counterexample.  The dashboard statistics bucket by
`UPPER(status)` with no TRIM: `"Pass"` and `"pass "` land in two
different buckets.  The per-version endpoint trims but leaves
unrecognized statuses case-sensitive: `"Skipped"` and `"skipped"` also
bucket apart. -/
theorem global_status_bucket_refutes :
    testsByStatusGlobal ["Pass", "pass "] = [("Pass", 1), ("pass ", 1)] ∧
    statusKeyGlobal "Pass" ≠ statusKeyGlobal "pass " ∧
    testsByStatusVersion ["Skipped", "skipped"] = [("Skipped", 1), ("skipped", 1)] :=
  ⟨rfl, by decide, rfl⟩

/-- C8 (amended): status-bucket normalization is partial.  The
per-version statistics key depends only on the TRIMMED status, and within
the recognized families (PASS/PASSED, FAIL/FAILED, BLOCKED, NOT
STARTED/NOTSTARTED) it also case-folds; the global statistics key
case-folds only within the recognized spellings (`PASS`, `FAIL`,
`BLOCKED`, `NOT STARTED`) and performs no trimming, so statuses differing
by surrounding whitespace — and unrecognized statuses differing by case —
are counted in different buckets.  `["Pass", "pass ", "PASSED"]` all
count in the version endpoint's single `Pass` bucket. -/
theorem status_bucket_normalization :
    (∀ s1 s2 : String, sqlTrim s1 = sqlTrim s2 →
      statusKeyVersion s1 = statusKeyVersion s2) ∧
    (∀ s1 s2 : String, asciiUpper (sqlTrim s1) = asciiUpper (sqlTrim s2) →
      asciiUpper (sqlTrim s1) ∈
        ["PASS", "PASSED", "FAIL", "FAILED", "BLOCKED", "NOT STARTED", "NOTSTARTED"] →
      statusKeyVersion s1 = statusKeyVersion s2) ∧
    (∀ s1 s2 : String, asciiUpper s1 = asciiUpper s2 →
      asciiUpper s1 ∈ ["PASS", "FAIL", "BLOCKED", "NOT STARTED"] →
      statusKeyGlobal s1 = statusKeyGlobal s2) ∧
    testsByStatusVersion ["Pass", "pass ", "PASSED"] = [("Pass", 3)] := by
  refine ⟨?_, ?_, ?_, rfl⟩
  · intro s1 s2 h
    unfold statusKeyVersion
    rw [h]
  · intro s1 s2 h hmem
    simp only [List.mem_cons, List.not_mem_nil, or_false] at hmem
    unfold statusKeyVersion
    rw [← h]
    rcases hmem with h1 | h1 | h1 | h1 | h1 | h1 | h1 <;> rw [h1] <;> rfl
  · intro s1 s2 h hmem
    simp only [List.mem_cons, List.not_mem_nil, or_false] at hmem
    unfold statusKeyGlobal
    rw [← h]
    rcases hmem with h1 | h1 | h1 | h1 <;> rw [h1] <;> rfl

/-- C8 — witness: `status_bucket_normalization` applied to concrete
status pairs from each normalization family. -/
theorem status_bucket_normalization_witness :
    statusKeyVersion "Pass" = statusKeyVersion "pass " ∧
    statusKeyGlobal "FAIL" = statusKeyGlobal "fail" ∧
    statusKeyVersion " Skipped" = statusKeyVersion "Skipped " :=
  ⟨status_bucket_normalization.2.1 "Pass" "pass " rfl (by decide),
   status_bucket_normalization.2.2.1 "FAIL" "fail" rfl (by decide),
   status_bucket_normalization.1 " Skipped" "Skipped " rfl⟩

/-- C9 — counterexample.  `PUT /api/custom-tests/:test_id` with an empty
body has no "no fields to update" guard: it reports success and issues a
timestamp-only write, refreshing the row's `updated_at`. -/
theorem custom_test_empty_update_refutes :
    (putCustomTest 9 [sampleCustomTest] "T1" []).1 = HResp.ok ∧
    (putCustomTest 9 [sampleCustomTest] "T1" []).2 =
      [{ sampleCustomTest with updated_at := SqlVal.i 9 }] ∧
    ({ sampleCustomTest with updated_at := SqlVal.i 9 } : CustomTestRow) ≠ sampleCustomTest :=
  ⟨rfl, rfl, by decide⟩

lemma lookup_eq_none_of_forall_ne (k : String) :
    ∀ l : List (String × Json), (∀ kv ∈ l, kv.1 ≠ k) → l.lookup k = none := by
  intro l
  induction l with
  | nil => intro _; rfl
  | cons e rest ih =>
    intro h
    obtain ⟨k0, v0⟩ := e
    have hk : k ≠ k0 := fun he => (h (k0, v0) (List.mem_cons_self _ _)) he.symm
    simp only [List.lookup, beq_eq_false_iff_ne.mpr hk]
    exact ih (fun kv hkv => h kv (List.mem_cons_of_mem _ hkv))

/-- C9 (amended): the user and version updates reject a payload with zero
surviving fields ("No fields to update", HTTP 400) and write nothing; the
custom-test update has no such guard — an empty payload (or one holding
only the excluded id/timestamp keys) still issues a timestamp-only write
to the matched row and reports success. -/
theorem empty_update_guard :
    (∀ (now : Nat) (s : List UserRow) (uid : String) (updates : List (String × Json)),
      (∀ kv ∈ updates, kv.1 = "id" ∨ kv.1 = "created_at") →
      putUser now s uid updates = (HResp.badRequest "No fields to update", s)) ∧
    (∀ (now : Nat) (s : List VersionRow) (vid : String) (updates : List (String × Json)),
      (∀ kv ∈ updates, kv.1 = "version_id" ∨ kv.1 = "id" ∨ kv.1 = "created_at") →
      versionUpdate now s vid updates = (HResp.badRequest "No fields to update", s)) ∧
    (∀ (now : Nat) (s : List CustomTestRow) (tid : String) (r0 : CustomTestRow),
      r0 ∈ s → r0.test_id = tid →
      putCustomTest now s tid [] =
        (HResp.ok, s.map (fun r =>
          if r.test_id == tid then { r with updated_at := SqlVal.i now } else r))) := by
  refine ⟨?_, ?_, ?_⟩
  · intro now s uid updates hkeys
    have hf : updates.filter (fun kv => !(kv.1 == "id") && !(kv.1 == "created_at")) = [] := by
      apply List.filter_eq_nil_iff.mpr
      intro kv hkv
      rcases hkeys kv hkv with h | h <;> simp [h]
    unfold putUser
    rw [hf]
    rfl
  · intro now s vid updates hkeys
    have hlk : updates.lookup "is_current" = none := by
      apply lookup_eq_none_of_forall_ne
      intro kv hkv
      rcases hkeys kv hkv with h | h | h <;> simp [h]
    have hf : versionFieldsOf updates = [] := by
      apply List.filter_eq_nil_iff.mpr
      intro kv hkv
      rcases hkeys kv hkv with h | h | h <;> simp [h]
    unfold versionUpdate
    rw [hlk, hf]
    rfl
  · intro now s tid r0 hmem hid
    have hf : r0 ∈ s.filter (fun r => r.test_id == tid) :=
      List.mem_filter.mpr ⟨hmem, by rw [hid]; exact beq_self_eq_true _⟩
    have hne : (s.filter (fun r => r.test_id == tid)).length ≠ 0 := by
      intro h0
      rw [List.length_eq_zero] at h0
      rw [h0] at hf
      exact List.not_mem_nil r0 hf
    have hred : putCustomTest now s tid [] =
        (if (s.filter (fun r => r.test_id == tid)).length = 0
         then (HResp.notFound "Test not found", s)
         else (HResp.ok, s.map (fun r =>
           if r.test_id == tid then { r with updated_at := SqlVal.i now } else r))) := rfl
    rw [hred, if_neg hne]

/-- C9 — witness: `empty_update_guard` on concrete stores: a users update
carrying only `id`, a versions update with an empty body, and an empty
custom-test update that bumps only the timestamp. -/
theorem empty_update_guard_witness :
    putUser 1 [soleAdmin] "admin-001" [("id", Json.str "admin-001")] =
      (HResp.badRequest "No fields to update", [soleAdmin]) ∧
    versionUpdate 1 [soleVersion] "VER_1" [] =
      (HResp.badRequest "No fields to update", [soleVersion]) ∧
    putCustomTest 9 [sampleCustomTest] "T1" [] =
      (HResp.ok, [{ sampleCustomTest with updated_at := SqlVal.i 9 }]) :=
  ⟨empty_update_guard.1 1 [soleAdmin] "admin-001" [("id", Json.str "admin-001")]
      (fun kv hkv => by
        rw [List.mem_singleton] at hkv
        subst hkv
        exact Or.inl rfl),
   empty_update_guard.2.1 1 [soleVersion] "VER_1" []
      (fun kv hkv => absurd hkv (List.not_mem_nil kv)),
   (empty_update_guard.2.2 9 [sampleCustomTest] "T1" sampleCustomTest
      (List.mem_singleton.mpr rfl) rfl).trans rfl⟩
